import Mathlib

/-!
A shallow embedding of the witx s-expression parser
(`src/tools/witx/src/parser.rs`).

The lexical layer (the `wast` crate) is external to the repository: it
delivers a stream of tokens (parentheses, `$`-identifiers, keywords,
`@`-reserved words, string literals, comments) and a cursor with one- and
two-token lookahead.  We model that stream as a `List Tok`; every
token-consuming primitive first skips leading comment tokens, exactly as the
`wast` cursor does for non-comment reads, while `CommentSyntax::parse`
collects the leading run of comments.  Each `Type::parse` method of the
source becomes a function `List Tok → Except PErr (Type × List Tok)`
returning the parsed value and the rest of the stream.

The source's unbounded `while !parser.is_empty()` loops and the recursion of
`DatatypeIdentSyntax::parse` are embedded with an explicit fuel parameter
(`parseManyF`, `parseDTF`); every call site passes `length + 1` fuel, which
always suffices because every iteration consumes at least one token — that
adequacy is proved (`.outOfFuel` is never returned, see the termination
theorems), so the fuel is an invisible embedding artifact.

`CommentSyntax::docs` works on Rust `&str` byte slices; it is embedded at
the `List Char` level with explicit UTF-8 byte counts (`Char.utf8Size`), so
that the byte-index slice `doc[to_trim..]` is modelled by `byteDrop`, which
returns `none` exactly when Rust would panic (index out of bounds or not a
character boundary).
-/

namespace Witx

/-- A token of the external `wast` lexer, as the parser observes it:
`(`, `)`, a `$`-identifier (payload without the `$`), a keyword, an
`@`-reserved word, a string literal, or a comment (payload with the
comment delimiters already stripped, as `CommentSyntax::parse` stores it). -/
inductive Tok where
  | lp
  | rp
  | id (s : String)
  | kw (s : String)
  | reserved (s : String)
  | strLit (s : String)
  | comment (s : String)
  deriving DecidableEq, Repr

/-- Parse errors: the `wast` error values the source can produce, keyed by
the expectation message.  `noMatch` is a `Lookahead1` failure listing the
alternatives that were peeked; `outOfFuel` is the embedding's marker for a
loop iteration bound running out (proved unreachable). -/
inductive PErr where
  | expectedLParen
  | expectedRParen
  | expectedId
  | expectedString
  | expectedKw (k : String)
  | expectedReserved (r : String)
  | noMatch (expected : List String)
  | outOfFuel
  deriving DecidableEq, Repr

/-- The `wast` cursor skips comments when reading any non-comment token. -/
def skipComments : List Tok → List Tok
  | .comment _ :: rest => skipComments rest
  | s => s

/-- `parser.peek::<wast::Id>()`. -/
def peekIsId (s : List Tok) : Bool :=
  match skipComments s with
  | .id _ :: _ => true
  | _ => false

/-- `parser.peek::<wast::LParen>()`. -/
def peekIsLParen (s : List Tok) : Bool :=
  match skipComments s with
  | .lp :: _ => true
  | _ => false

/-- `parser.peek::<kw::k>()` for a keyword `k`. -/
def peekKw (k : String) (s : List Tok) : Bool :=
  match skipComments s with
  | .kw k' :: _ => k' == k
  | _ => false

/-- `Peek` for the reserved-word markers (`AtWitx`, `AtInterface`):
`cursor.reserved().map(|s| s.0) == Some(r)`. -/
def peekReserved (r : String) (s : List Tok) : Bool :=
  match skipComments s with
  | .reserved r' :: _ => r' == r
  | _ => false

/-- `parser.peek2::<kw::k>()`: the keyword test on the second token. -/
def peek2Kw (k : String) (s : List Tok) : Bool :=
  match skipComments s with
  | _ :: rest => peekKw k rest
  | [] => false

/-- `parser.peek2::<AtWitx>()`: the reserved-word test on the second token. -/
def peek2Reserved (r : String) (s : List Tok) : Bool :=
  match skipComments s with
  | _ :: rest => peekReserved r rest
  | [] => false

/-- `parser.parse::<wast::Id>()`. -/
def parseId (s : List Tok) : Except PErr (String × List Tok) :=
  match skipComments s with
  | .id n :: rest => .ok (n, rest)
  | _ => .error .expectedId

/-- `parser.parse::<&str>()`: a string literal. -/
def parseString (s : List Tok) : Except PErr (String × List Tok) :=
  match skipComments s with
  | .strLit v :: rest => .ok (v, rest)
  | _ => .error .expectedString

/-- `parser.parse::<kw::k>()`: consume the keyword `k`. -/
def consumeKw (k : String) (s : List Tok) : Except PErr (List Tok) :=
  match skipComments s with
  | .kw k' :: rest => if k' == k then .ok rest else .error (.expectedKw k)
  | _ => .error (.expectedKw k)

/-- `AtWitx::parse` / `AtInterface::parse`: consume the reserved word `r`. -/
def consumeReserved (r : String) (s : List Tok) : Except PErr (List Tok) :=
  match skipComments s with
  | .reserved r' :: rest => if r' == r then .ok rest else .error (.expectedReserved r)
  | _ => .error (.expectedReserved r)

/-- Entering a parenthesised form: consume `(`. -/
def consumeLParen (s : List Tok) : Except PErr (List Tok) :=
  match skipComments s with
  | .lp :: rest => .ok rest
  | _ => .error .expectedLParen

/-- Leaving a parenthesised form: consume `)`. -/
def consumeRParen (s : List Tok) : Except PErr (List Tok) :=
  match skipComments s with
  | .rp :: rest => .ok rest
  | _ => .error .expectedRParen

/-- `parser.is_empty()`: at the end of the input or at a closing paren. -/
def isEmptyP (s : List Tok) : Bool :=
  match skipComments s with
  | [] => true
  | .rp :: _ => true
  | _ => false

/-- `parser.cur_span()`: an abstract source location for diagnostics; the
remaining stream length serves as the position. -/
def curSpan (s : List Tok) : Nat :=
  (skipComments s).length

/-- `parser.parens(f)`: consume `(`, run `f`, consume `)`. -/
def parens (f : List Tok → Except PErr (α × List Tok)) (s : List Tok) :
    Except PErr (α × List Tok) := do
  let s1 ← consumeLParen s
  let (x, s2) ← f s1
  let s3 ← consumeRParen s2
  return (x, s3)

/-- The source's `while !parser.is_empty() { items.push(parser.parse()?) }`
loops, with the iteration count bounded by explicit fuel.  Call sites pass
`length + 1` fuel; since every loop body consumes at least one token this
never runs out (proved in the termination theorems below). -/
def parseManyF (p : List Tok → Except PErr (α × List Tok)) :
    Nat → List Tok → Except PErr (List α × List Tok)
  | 0, _ => .error .outOfFuel
  | fuel + 1, s =>
    if isEmptyP s then .ok ([], s)
    else
      match p s with
      | .error e => .error e
      | .ok (x, s1) =>
        match parseManyF p fuel s1 with
        | .error e => .error e
        | .ok (xs, s2) => .ok (x :: xs, s2)

/-- `BuiltinType` (`parser.rs` lines 44–57). -/
inductive BuiltinType where
  | String
  | U8
  | U16
  | U32
  | U64
  | S8
  | S16
  | S32
  | S64
  | F32
  | F64
  deriving DecidableEq, Repr

/-- The accepted scalar keywords, in the order the `Lookahead1` chain of
`BuiltinType::parse` peeks them (and hence the order its error lists). -/
def builtinTypeKeywords : List String :=
  ["string", "u8", "u16", "u32", "u64", "s8", "s16", "s32", "s64", "f32", "f64"]

/-- `impl Parse for BuiltinType` (lines 59–99): an eleven-way lookahead
chain; on no match, the lookahead error listing every peeked keyword. -/
def parseBuiltinType (s : List Tok) : Except PErr (BuiltinType × List Tok) :=
  if peekKw "string" s then (consumeKw "string" s).map (fun r => (.String, r))
  else if peekKw "u8" s then (consumeKw "u8" s).map (fun r => (.U8, r))
  else if peekKw "u16" s then (consumeKw "u16" s).map (fun r => (.U16, r))
  else if peekKw "u32" s then (consumeKw "u32" s).map (fun r => (.U32, r))
  else if peekKw "u64" s then (consumeKw "u64" s).map (fun r => (.U64, r))
  else if peekKw "s8" s then (consumeKw "s8" s).map (fun r => (.S8, r))
  else if peekKw "s16" s then (consumeKw "s16" s).map (fun r => (.S16, r))
  else if peekKw "s32" s then (consumeKw "s32" s).map (fun r => (.S32, r))
  else if peekKw "s64" s then (consumeKw "s64" s).map (fun r => (.S64, r))
  else if peekKw "f32" s then (consumeKw "f32" s).map (fun r => (.F32, r))
  else if peekKw "f64" s then (consumeKw "f64" s).map (fun r => (.F64, r))
  else .error (.noMatch builtinTypeKeywords)

/-- Whether the next token is one of the eleven scalar keywords (the
condition under which the `Lookahead1` chain of `BuiltinType::parse`
commits to a branch). -/
def headIsBuiltinKw (s : List Tok) : Bool :=
  match skipComments s with
  | .kw k :: _ => builtinTypeKeywords.contains k
  | _ => false

/-- `CommentSyntax` (lines 101–104): the raw comment texts, in order. -/
structure CommentSyntax where
  comments : List String
  deriving DecidableEq, Repr

/-- `impl Parse for CommentSyntax` (lines 106–125): greedily collect the
leading run of comment tokens.  The step closure never fails, so the
embedding is a total function. -/
def parseCommentSyntax : List Tok → CommentSyntax × List Tok
  | .comment c :: rest =>
    let (cs, r) := parseCommentSyntax rest
    (⟨c :: cs.comments⟩, r)
  | s => (⟨[]⟩, s)

/-- `Documented<T>` (lines 167–171). -/
structure Documented (α : Type) where
  comments : CommentSyntax
  item : α
  deriving DecidableEq, Repr

/-- `impl Parse for Documented<T>` (lines 173–179). -/
def parseDocumented (p : List Tok → Except PErr (α × List Tok)) (s : List Tok) :
    Except PErr (Documented α × List Tok) :=
  let (c, s1) := parseCommentSyntax s
  match p s1 with
  | .ok (x, s2) => .ok (⟨c, x⟩, s2)
  | .error e => .error e

/-- `DatatypeIdentSyntax` (lines 181–188). -/
inductive DatatypeIdentSyntax where
  | Builtin (b : BuiltinType)
  | Array (t : DatatypeIdentSyntax)
  | Pointer (t : DatatypeIdentSyntax)
  | ConstPointer (t : DatatypeIdentSyntax)
  | Ident (name : String)
  deriving DecidableEq, Repr

/-- `impl Parse for DatatypeIdentSyntax` (lines 190–214), with the
structural recursion bounded by fuel: peek a bare identifier → `Ident`;
else peek2 the `array` keyword → `(array <nested>)`; else any parenthesis →
`(@witx const_pointer <nested>)` or `(@witx pointer <nested>)`; otherwise a
built-in scalar.  (The source's `wast::custom_keyword!(const_pointer)`
declares the keyword spelled `const_pointer`.) -/
def parseDTF : Nat → List Tok → Except PErr (DatatypeIdentSyntax × List Tok)
  | 0, _ => .error .outOfFuel
  | fuel + 1, s =>
    if peekIsId s then
      match parseId s with
      | .ok (n, rest) => .ok (.Ident n, rest)
      | .error e => .error e
    else if peek2Kw "array" s then
      match consumeLParen s with
      | .error e => .error e
      | .ok s1 =>
        match consumeKw "array" s1 with
        | .error e => .error e
        | .ok s2 =>
          match parseDTF fuel s2 with
          | .error e => .error e
          | .ok (t, s3) =>
            match consumeRParen s3 with
            | .error e => .error e
            | .ok s4 => .ok (.Array t, s4)
    else if peekIsLParen s then
      match consumeLParen s with
      | .error e => .error e
      | .ok s1 =>
        match consumeReserved "@witx" s1 with
        | .error e => .error e
        | .ok s2 =>
          if peekKw "const_pointer" s2 then
            match consumeKw "const_pointer" s2 with
            | .error e => .error e
            | .ok s3 =>
              match parseDTF fuel s3 with
              | .error e => .error e
              | .ok (t, s4) =>
                match consumeRParen s4 with
                | .error e => .error e
                | .ok s5 => .ok (.ConstPointer t, s5)
          else
            match consumeKw "pointer" s2 with
            | .error e => .error e
            | .ok s3 =>
              match parseDTF fuel s3 with
              | .error e => .error e
              | .ok (t, s4) =>
                match consumeRParen s4 with
                | .error e => .error e
                | .ok s5 => .ok (.Pointer t, s5)
    else
      match parseBuiltinType s with
      | .ok (b, rest) => .ok (.Builtin b, rest)
      | .error e => .error e

/-- `DatatypeIdentSyntax::parse` at adequate fuel (each recursion step
consumes at least two tokens, so `length + 1` can never run out). -/
def parseDatatypeIdentSyntax (s : List Tok) :
    Except PErr (DatatypeIdentSyntax × List Tok) :=
  parseDTF (s.length + 1) s

/-- `EnumSyntax` (lines 365–369). -/
structure EnumSyntax where
  repr : BuiltinType
  members : List (Documented String)
  deriving DecidableEq, Repr

/-- `impl Parse for EnumSyntax` (lines 371–382): `enum`, a representation
type, then one-or-more documented member identifiers. -/
def parseEnumSyntax (s : List Tok) : Except PErr (EnumSyntax × List Tok) := do
  let s1 ← consumeKw "enum" s
  let (r, s2) ← parseBuiltinType s1
  let (m, s3) ← parseDocumented parseId s2
  let (ms, s4) ← parseManyF (parseDocumented parseId) (s3.length + 1) s3
  return (⟨r, m :: ms⟩, s4)

/-- `FlagsSyntax` (lines 384–388). -/
structure FlagsSyntax where
  repr : BuiltinType
  flags : List (Documented String)
  deriving DecidableEq, Repr

/-- `impl Parse for FlagsSyntax` (lines 390–400): `flags`, a representation
type, then zero-or-more documented flag identifiers. -/
def parseFlagsSyntax (s : List Tok) : Except PErr (FlagsSyntax × List Tok) := do
  let s1 ← consumeKw "flags" s
  let (r, s2) ← parseBuiltinType s1
  let (fs, s3) ← parseManyF (parseDocumented parseId) (s2.length + 1) s2
  return (⟨r, fs⟩, s3)

/-- `FieldSyntax` (lines 419–423). -/
structure FieldSyntax where
  name : String
  type_ : DatatypeIdentSyntax
  deriving DecidableEq, Repr

/-- `impl Parse for FieldSyntax` (lines 425–434): `(field <id> <type>)`. -/
def parseFieldSyntax (s : List Tok) : Except PErr (FieldSyntax × List Tok) :=
  parens (fun p => do
    let s1 ← consumeKw "field" p
    let (n, s2) ← parseId s1
    let (t, s3) ← parseDatatypeIdentSyntax s2
    return (⟨n, t⟩, s3)) s

/-- `StructSyntax` (lines 402–405). -/
structure StructSyntax where
  fields : List (Documented FieldSyntax)
  deriving DecidableEq, Repr

/-- `impl Parse for StructSyntax` (lines 407–417): `struct`, then
one-or-more documented fields. -/
def parseStructSyntax (s : List Tok) : Except PErr (StructSyntax × List Tok) := do
  let s1 ← consumeKw "struct" s
  let (f, s2) ← parseDocumented parseFieldSyntax s1
  let (fs, s3) ← parseManyF (parseDocumented parseFieldSyntax) (s2.length + 1) s2
  return (⟨f :: fs⟩, s3)

/-- `UnionSyntax` (lines 436–439). -/
structure UnionSyntax where
  fields : List (Documented FieldSyntax)
  deriving DecidableEq, Repr

/-- `impl Parse for UnionSyntax` (lines 441–451): `union`, then one-or-more
documented fields. -/
def parseUnionSyntax (s : List Tok) : Except PErr (UnionSyntax × List Tok) := do
  let s1 ← consumeKw "union" s
  let (f, s2) ← parseDocumented parseFieldSyntax s1
  let (fs, s3) ← parseManyF (parseDocumented parseFieldSyntax) (s2.length + 1) s2
  return (⟨f :: fs⟩, s3)

/-- `HandleSyntax` (lines 453–456). -/
structure HandleSyntax where
  supertypes : List String
  deriving DecidableEq, Repr

/-- `impl Parse for HandleSyntax` (lines 458–467): `handle`, then
zero-or-more supertype identifiers. -/
def parseHandleSyntax (s : List Tok) : Except PErr (HandleSyntax × List Tok) := do
  let s1 ← consumeKw "handle" s
  let (ts, s2) ← parseManyF parseId (s1.length + 1) s1
  return (⟨ts⟩, s2)

/-- `TypedefSyntax` (lines 330–338). -/
inductive TypedefSyntax where
  | Ident (t : DatatypeIdentSyntax)
  | Enum (e : EnumSyntax)
  | Flags (f : FlagsSyntax)
  | Struct (s : StructSyntax)
  | Union (u : UnionSyntax)
  | Handle (h : HandleSyntax)
  deriving DecidableEq, Repr

/-- The five type-definition keywords, in the order `TypedefSyntax::parse`
peeks them. -/
def typedefKeywords : List String :=
  ["enum", "flags", "struct", "union", "handle"]

/-- `impl Parse for TypedefSyntax` (lines 340–363): a direct alias when the
body is not parenthesised, or is an `array` form, or is an `@witx` form;
otherwise a parenthesised `enum`/`flags`/`struct`/`union`/`handle` body,
with the lookahead error on any other leading keyword. -/
def parseTypedefSyntax (s : List Tok) : Except PErr (TypedefSyntax × List Tok) :=
  if !peekIsLParen s || peek2Kw "array" s || peek2Reserved "@witx" s then
    match parseDatatypeIdentSyntax s with
    | .ok (t, r) => .ok (.Ident t, r)
    | .error e => .error e
  else
    parens (fun p =>
      if peekKw "enum" p then (parseEnumSyntax p).map (fun x => (.Enum x.1, x.2))
      else if peekKw "flags" p then (parseFlagsSyntax p).map (fun x => (.Flags x.1, x.2))
      else if peekKw "struct" p then (parseStructSyntax p).map (fun x => (.Struct x.1, x.2))
      else if peekKw "union" p then (parseUnionSyntax p).map (fun x => (.Union x.1, x.2))
      else if peekKw "handle" p then (parseHandleSyntax p).map (fun x => (.Handle x.1, x.2))
      else .error (.noMatch typedefKeywords)) s

/-- `TypenameSyntax` (lines 315–319); the definition field is `def` in the
source, a reserved word here. -/
structure TypenameSyntax where
  ident : String
  def_ : TypedefSyntax
  deriving DecidableEq, Repr

/-- `impl Parse for TypenameSyntax` (lines 321–328). -/
def parseTypenameSyntax (s : List Tok) : Except PErr (TypenameSyntax × List Tok) := do
  let s1 ← consumeKw "typename" s
  let (i, s2) ← parseId s1
  let (d, s3) ← parseTypedefSyntax s2
  return (⟨i, d⟩, s3)

/-- `ImportTypeSyntax` (lines 536–539). -/
inductive ImportTypeSyntax where
  | Memory
  deriving DecidableEq, Repr

/-- `impl Parse for ImportTypeSyntax` (lines 541–546). -/
def parseImportTypeSyntax (s : List Tok) : Except PErr (ImportTypeSyntax × List Tok) :=
  (consumeKw "memory" s).map (fun r => (.Memory, r))

/-- `ModuleImportSyntax` (lines 508–513). -/
structure ModuleImportSyntax where
  name : String
  name_loc : Nat
  type_ : ImportTypeSyntax
  deriving DecidableEq, Repr

/-- `impl Parse for ModuleImportSyntax` (lines 515–525): `import`, the
location of the name, the name string, then a parenthesised import type. -/
def parseModuleImportSyntax (s : List Tok) :
    Except PErr (ModuleImportSyntax × List Tok) := do
  let s1 ← consumeKw "import" s
  let loc := curSpan s1
  let (n, s2) ← parseString s1
  let (t, s3) ← parens parseImportTypeSyntax s2
  return (⟨n, loc, t⟩, s3)

/-- `impl PartialEq for ModuleImportSyntax` (lines 527–532): equality that
skips the `name_loc` field. -/
def moduleImportEq (a b : ModuleImportSyntax) : Bool :=
  decide (a.name = b.name) && decide (a.type_ = b.type_)

/-- `InterfaceFuncField` (lines 596–599). -/
inductive InterfaceFuncField where
  | Param (f : FieldSyntax)
  | Result (f : FieldSyntax)
  deriving DecidableEq, Repr

/-- `impl Parse for InterfaceFuncField` (lines 600–621):
`(param <id> <type>)` or `(result <id> <type>)`, by lookahead. -/
def parseInterfaceFuncField (s : List Tok) :
    Except PErr (InterfaceFuncField × List Tok) :=
  parens (fun p =>
    if peekKw "param" p then do
      let s1 ← consumeKw "param" p
      let (n, s2) ← parseId s1
      let (t, s3) ← parseDatatypeIdentSyntax s2
      return (.Param ⟨n, t⟩, s3)
    else if peekKw "result" p then do
      let s1 ← consumeKw "result" p
      let (n, s2) ← parseId s1
      let (t, s3) ← parseDatatypeIdentSyntax s2
      return (.Result ⟨n, t⟩, s3)
    else .error (.noMatch ["param", "result"])) s

/-- `InterfaceFuncSyntax` (lines 548–554); `export` is a reserved word
here, hence `export_`. -/
structure InterfaceFuncSyntax where
  export_ : String
  export_loc : Nat
  params : List (Documented FieldSyntax)
  results : List (Documented FieldSyntax)
  deriving DecidableEq, Repr

/-- The demultiplexing loop body of `InterfaceFuncSyntax::parse` (lines
569–585): each `Param` field is pushed onto the params sequence and each
`Result` field onto the results sequence, in source order, keeping the
field's comments. -/
def partitionFuncFields : List (Documented InterfaceFuncField) →
    List (Documented FieldSyntax) × List (Documented FieldSyntax)
  | [] => ([], [])
  | f :: rest =>
    let (ps, rs) := partitionFuncFields rest
    match f.item with
    | .Param x => (⟨f.comments, x⟩ :: ps, rs)
    | .Result x => (ps, ⟨f.comments, x⟩ :: rs)

/-- `impl Parse for InterfaceFuncSyntax` (lines 556–594): `@interface`,
`func`, a parenthesised `(export "<name>")` recording the export location,
then the intermixed documented param/result fields, demultiplexed. -/
def parseInterfaceFuncSyntax (s : List Tok) :
    Except PErr (InterfaceFuncSyntax × List Tok) := do
  let s1 ← consumeReserved "@interface" s
  let s2 ← consumeKw "func" s1
  let (ex, s3) ← parens (fun p => do
    let q ← consumeKw "export" p
    let loc := curSpan q
    let (e, q2) ← parseString q
    return ((loc, e), q2)) s2
  let (fs, s4) ← parseManyF (parseDocumented parseInterfaceFuncField) (s3.length + 1) s3
  let (ps, rs) := partitionFuncFields fs
  return (⟨ex.2, ex.1, ps, rs⟩, s4)

/-- `impl PartialEq for InterfaceFuncSyntax` (lines 623–628): equality that
skips the `export_loc` field. -/
def interfaceFuncEq (a b : InterfaceFuncSyntax) : Bool :=
  decide (a.export_ = b.export_) && decide (a.params = b.params)
    && decide (a.results = b.results)

/-- `ModuleDeclSyntax` (lines 487–491). -/
inductive ModuleDeclSyntax where
  | Import (i : ModuleImportSyntax)
  | Func (f : InterfaceFuncSyntax)
  deriving DecidableEq, Repr

/-- `impl Parse for ModuleDeclSyntax` (lines 493–506). -/
def parseModuleDeclSyntax (s : List Tok) :
    Except PErr (ModuleDeclSyntax × List Tok) :=
  parens (fun p =>
    if peekKw "import" p then
      (parseModuleImportSyntax p).map (fun x => (.Import x.1, x.2))
    else if peekReserved "@interface" p then
      (parseInterfaceFuncSyntax p).map (fun x => (.Func x.1, x.2))
    else .error (.noMatch ["import", "@interface"])) s

/-- `ModuleSyntax` (lines 469–473). -/
structure ModuleSyntax where
  name : String
  decls : List (Documented ModuleDeclSyntax)
  deriving DecidableEq, Repr

/-- `impl Parse for ModuleSyntax` (lines 475–485). -/
def parseModuleSyntax (s : List Tok) : Except PErr (ModuleSyntax × List Tok) := do
  let s1 ← consumeKw "module" s
  let (n, s2) ← parseId s1
  let (ds, s3) ← parseManyF (parseDocumented parseModuleDeclSyntax) (s2.length + 1) s2
  return (⟨n, ds⟩, s3)

/-- `DeclSyntax` (lines 296–300). -/
inductive DeclSyntax where
  | Typename (t : TypenameSyntax)
  | Module (m : ModuleSyntax)
  deriving DecidableEq, Repr

/-- `impl Parse for DeclSyntax` (lines 302–313). -/
def parseDeclSyntax (s : List Tok) : Except PErr (DeclSyntax × List Tok) :=
  if peekKw "module" s then (parseModuleSyntax s).map (fun x => (.Module x.1, x.2))
  else if peekKw "typename" s then
    (parseTypenameSyntax s).map (fun x => (.Typename x.1, x.2))
  else .error (.noMatch ["module", "typename"])

/-- `TopLevelSyntax` (lines 277–281). -/
inductive TopLevelSyntax where
  | Decl (d : DeclSyntax)
  | Use (path : String)
  deriving DecidableEq, Repr

/-- `impl Parse for TopLevelSyntax` (lines 283–294): one parenthesised
form, `(use "<path>")` or a declaration. -/
def parseTopLevelSyntax (s : List Tok) : Except PErr (TopLevelSyntax × List Tok) :=
  parens (fun p =>
    if peekKw "use" p then do
      let s1 ← consumeKw "use" p
      let (u, s2) ← parseString s1
      return (.Use u, s2)
    else (parseDeclSyntax p).map (fun x => (.Decl x.1, x.2))) s

/-- `TopLevelDocument` (lines 262–265). -/
structure TopLevelDocument where
  items : List (Documented TopLevelSyntax)
  deriving DecidableEq, Repr

/-- `impl Parse for TopLevelDocument` (lines 267–275): the while-not-empty
loop over documented top-level forms. -/
def parseTopLevelDocument (s : List Tok) :
    Except PErr (TopLevelDocument × List Tok) :=
  (parseManyF (parseDocumented parseTopLevelSyntax) (s.length + 1) s).map
    (fun x => (⟨x.1⟩, x.2))

/-! ## Canonical token renderings, for the round-trip statements -/

/-- The keyword of each built-in scalar type. -/
def builtinKeyword : BuiltinType → String
  | .String => "string"
  | .U8 => "u8"
  | .U16 => "u16"
  | .U32 => "u32"
  | .U64 => "u64"
  | .S8 => "s8"
  | .S16 => "s16"
  | .S32 => "s32"
  | .S64 => "s64"
  | .F32 => "f32"
  | .F64 => "f64"

/-- The canonical token spelling of a datatype reference: `$id`, a scalar
keyword, `(array <t>)`, `(@witx pointer <t>)`, `(@witx const_pointer <t>)`. -/
def renderDT : DatatypeIdentSyntax → List Tok
  | .Builtin b => [Tok.kw (builtinKeyword b)]
  | .Ident n => [Tok.id n]
  | .Array t => Tok.lp :: Tok.kw "array" :: (renderDT t ++ [Tok.rp])
  | .Pointer t =>
    Tok.lp :: Tok.reserved "@witx" :: Tok.kw "pointer" :: (renderDT t ++ [Tok.rp])
  | .ConstPointer t =>
    Tok.lp :: Tok.reserved "@witx" :: Tok.kw "const_pointer" :: (renderDT t ++ [Tok.rp])

/-- An abstract interface-function field: its doc comments, whether it is a
`param` (else a `result`), its name identifier and its type reference. -/
structure FieldDesc where
  docs : List String
  isParam : Bool
  name : String
  ty : DatatypeIdentSyntax
  deriving DecidableEq, Repr

/-- The token spelling of one interface-function field:
the doc comments, then `(param $name <ty>)` or `(result $name <ty>)`. -/
def renderFieldDesc (f : FieldDesc) : List Tok :=
  f.docs.map Tok.comment
    ++ [Tok.lp, Tok.kw (if f.isParam then "param" else "result"), Tok.id f.name]
    ++ renderDT f.ty ++ [Tok.rp]

/-- The token spelling of a whole interface-function form body:
`@interface func (export "e") <fields>`. -/
def interfaceFuncToks (e : String) (fds : List FieldDesc) : List Tok :=
  [Tok.reserved "@interface", Tok.kw "func",
   Tok.lp, Tok.kw "export", Tok.strLit e, Tok.rp]
    ++ (fds.map renderFieldDesc).flatten

/-- The documented field a `FieldDesc` stands for in the parsed output. -/
def fieldDescDoc (f : FieldDesc) : Documented FieldSyntax :=
  ⟨⟨f.docs⟩, ⟨f.name, f.ty⟩⟩

/-- The documented `InterfaceFuncField` a `FieldDesc` parses to, before the
demultiplexing step. -/
def fieldDescItem (f : FieldDesc) : Documented InterfaceFuncField :=
  ⟨⟨f.docs⟩,
   if f.isParam then .Param ⟨f.name, f.ty⟩ else .Result ⟨f.name, f.ty⟩⟩

/-- Whether the stream does not begin with a comment token. -/
def headNotComment : List Tok → Bool
  | .comment _ :: _ => false
  | _ => true

/-! ## `CommentSyntax::docs` (lines 127–165), at the `List Char` level

Rust strings are UTF-8 byte sequences; `str::len` counts bytes and
`&s[i..]` slices at a byte index, panicking when `i` is out of bounds or
not a character boundary.  A comment text is modelled as a `List Char`,
byte lengths via `Char.utf8Size`, and the slice `&doc[to_trim..]` via
`byteDrop`, which is `none` exactly when Rust panics. -/

/-- `char::is_whitespace`: the Unicode `White_Space` property, as Rust's
`str::trim`/`trim_end` use it. -/
def rustIsWhitespace (c : Char) : Bool :=
  (0x9 ≤ c.toNat && c.toNat ≤ 0xD) || c.toNat == 0x20 || c.toNat == 0x85
    || c.toNat == 0xA0 || c.toNat == 0x1680
    || (0x2000 ≤ c.toNat && c.toNat ≤ 0x200A)
    || c.toNat == 0x2028 || c.toNat == 0x2029 || c.toNat == 0x202F
    || c.toNat == 0x205F || c.toNat == 0x3000

/-- `str::trim_start`. -/
def trimStartChars (l : List Char) : List Char :=
  l.dropWhile rustIsWhitespace

/-- `str::trim_end`. -/
def trimEndChars (l : List Char) : List Char :=
  (l.reverse.dropWhile rustIsWhitespace).reverse

/-- `str::trim`. -/
def trimChars (l : List Char) : List Char :=
  trimEndChars (trimStartChars l)

/-- The UTF-8 byte length of a string, `str::len`. -/
def utf8Len (l : List Char) : Nat :=
  (l.map Char.utf8Size).sum

/-- `&s[n..]`: drop the first `n` BYTES of `s`; `none` when `n` is out of
bounds or does not fall on a character boundary (a Rust panic). -/
def byteDrop : Nat → List Char → Option (List Char)
  | 0, l => some l
  | _ + 1, [] => none
  | n + 1, c :: l =>
    if c.utf8Size ≤ n + 1 then byteDrop (n + 1 - c.utf8Size) l else none

/-- The `docs` list of `CommentSyntax::docs` (lines 132–143): right-trim
each comment, keep those beginning with `;`, dropping that `;`. -/
def docsLines (comments : List (List Char)) : List (List Char) :=
  (comments.map trimEndChars).filterMap (fun d =>
    match d with
    | c :: rest => if c = ';' then some rest else none
    | [] => none)

/-- `to_trim` (lines 147–152): the minimum of `d.len() - d.trim().len()`
(byte counts) over the non-empty doc lines, defaulting to zero. -/
def toTrim (docs : List (List Char)) : Nat :=
  (((docs.filter (fun d => !d.isEmpty)).map
      (fun d => utf8Len d - utf8Len (trimChars d))).min?).getD 0

/-- The output loop of `CommentSyntax::docs` (lines 156–163) over an
already-classified doc-line list: for each line, when non-empty append
`doc[to_trim..].trim_end()` (the byte slice may panic), then a newline. -/
def docsFrom (docs : List (List Char)) : Option (List Char) :=
  let t := toTrim docs
  (docs.mapM (fun (d : List Char) =>
    if d.isEmpty then some ['\n']
    else (byteDrop t d).map (fun r => trimEndChars r ++ ['\n']))).map List.flatten

/-- `CommentSyntax::docs` (lines 128–164): `none` is a Rust panic. -/
def commentDocs (comments : List (List Char)) : Option (List Char) :=
  docsFrom (docsLines comments)

/-- Modelled from the spec (§4.2 step 3, the refinement target for the
common-indentation removal): the minimum leading-whitespace length across
all non-empty doc lines, counted in characters, uniformly trimmed from the
left of every doc line. -/
def specToTrim (docs : List (List Char)) : Nat :=
  (((docs.filter (fun d => !d.isEmpty)).map
      (fun d => (d.takeWhile rustIsWhitespace).length)).min?).getD 0

/-- Modelled from the spec (§4.2 steps 3–4): every non-empty doc line has
`specToTrim` characters removed from its left and is right-trimmed; every
line contributes a trailing newline. -/
def commentDocsSpec (comments : List (List Char)) : List Char :=
  let docs := docsLines comments
  let t := specToTrim docs
  (docs.map (fun d =>
    (if d.isEmpty then [] else trimEndChars (d.drop t)) ++ ['\n'])).flatten

/-- Every doc line's leading whitespace consists of single-byte characters
(the condition under which the byte index `to_trim` falls on a character
boundary of every line it slices). -/
def docLeadingWsOneByte (comments : List (List Char)) : Prop :=
  ∀ d ∈ docsLines comments, ∀ c ∈ d.takeWhile rustIsWhitespace, c.utf8Size = 1

instance (comments : List (List Char)) : Decidable (docLeadingWsOneByte comments) := by
  unfold docLeadingWsOneByte; infer_instance

/-! ## Lemmas: the token primitives -/

@[simp] lemma skipComments_nil : skipComments [] = [] := rfl

@[simp] lemma skipComments_comment (c : String) (r : List Tok) :
    skipComments (.comment c :: r) = skipComments r := rfl

@[simp] lemma skipComments_lp (r : List Tok) : skipComments (.lp :: r) = .lp :: r := rfl

@[simp] lemma skipComments_rp (r : List Tok) : skipComments (.rp :: r) = .rp :: r := rfl

@[simp] lemma skipComments_id (n : String) (r : List Tok) :
    skipComments (.id n :: r) = .id n :: r := rfl

@[simp] lemma skipComments_kw (k : String) (r : List Tok) :
    skipComments (.kw k :: r) = .kw k :: r := rfl

@[simp] lemma skipComments_reserved (w : String) (r : List Tok) :
    skipComments (.reserved w :: r) = .reserved w :: r := rfl

@[simp] lemma skipComments_strLit (v : String) (r : List Tok) :
    skipComments (.strLit v :: r) = .strLit v :: r := rfl

lemma skipComments_length (s : List Tok) : (skipComments s).length ≤ s.length := by
  induction s with
  | nil => simp
  | cons t r ih => cases t <;> simp [skipComments] <;> omega

lemma length_lt_of_skip_eq_cons {s : List Tok} {t : Tok} {r : List Tok}
    (h : skipComments s = t :: r) : r.length < s.length := by
  have hle := skipComments_length s
  rw [h] at hle
  simp at hle
  omega

lemma bindE_ok {ε α β : Type} (m : Except ε α) (f : α → Except ε β) (b : β) :
    (m >>= f = Except.ok b) ↔ ∃ a, m = Except.ok a ∧ f a = Except.ok b := by
  cases m <;> simp [Bind.bind, Except.bind]

lemma bindE_error {ε α β : Type} (m : Except ε α) (f : α → Except ε β) (e : ε) :
    (m >>= f = Except.error e) ↔
      m = Except.error e ∨ ∃ a, m = Except.ok a ∧ f a = Except.error e := by
  cases m <;> simp [Bind.bind, Except.bind]

lemma mapE_ok {ε α β : Type} (g : α → β) (m : Except ε α) (b : β) :
    (m.map g = Except.ok b) ↔ ∃ a, m = Except.ok a ∧ g a = b := by
  cases m <;> simp [Except.map]

lemma mapE_error {ε α β : Type} (g : α → β) (m : Except ε α) (e : ε) :
    (m.map g = Except.error e) ↔ m = Except.error e := by
  cases m <;> simp [Except.map]

lemma parseId_length {s : List Tok} {x : String} {s' : List Tok}
    (h : parseId s = .ok (x, s')) : s'.length < s.length := by
  unfold parseId at h
  cases hs : skipComments s with
  | nil => rw [hs] at h; simp at h
  | cons t r =>
    rw [hs] at h
    cases t <;> simp at h
    exact h.2 ▸ length_lt_of_skip_eq_cons hs

lemma parseString_length {s : List Tok} {x : String} {s' : List Tok}
    (h : parseString s = .ok (x, s')) : s'.length < s.length := by
  unfold parseString at h
  cases hs : skipComments s with
  | nil => rw [hs] at h; simp at h
  | cons t r =>
    rw [hs] at h
    cases t <;> simp at h
    exact h.2 ▸ length_lt_of_skip_eq_cons hs

lemma consumeKw_length {k : String} {s s' : List Tok}
    (h : consumeKw k s = .ok s') : s'.length < s.length := by
  unfold consumeKw at h
  cases hs : skipComments s with
  | nil => rw [hs] at h; simp at h
  | cons t r =>
    rw [hs] at h
    cases t <;> simp at h
    split at h <;> simp at h
    exact h ▸ length_lt_of_skip_eq_cons hs

lemma consumeReserved_length {w : String} {s s' : List Tok}
    (h : consumeReserved w s = .ok s') : s'.length < s.length := by
  unfold consumeReserved at h
  cases hs : skipComments s with
  | nil => rw [hs] at h; simp at h
  | cons t r =>
    rw [hs] at h
    cases t <;> simp at h
    split at h <;> simp at h
    exact h ▸ length_lt_of_skip_eq_cons hs

lemma consumeLParen_length {s s' : List Tok}
    (h : consumeLParen s = .ok s') : s'.length < s.length := by
  unfold consumeLParen at h
  cases hs : skipComments s with
  | nil => rw [hs] at h; simp at h
  | cons t r =>
    rw [hs] at h
    cases t <;> simp at h
    exact h ▸ length_lt_of_skip_eq_cons hs

lemma consumeRParen_length {s s' : List Tok}
    (h : consumeRParen s = .ok s') : s'.length < s.length := by
  unfold consumeRParen at h
  cases hs : skipComments s with
  | nil => rw [hs] at h; simp at h
  | cons t r =>
    rw [hs] at h
    cases t <;> simp at h
    exact h ▸ length_lt_of_skip_eq_cons hs

lemma parseId_ne_fuel (s : List Tok) : parseId s ≠ .error .outOfFuel := by
  unfold parseId; split <;> simp

lemma parseString_ne_fuel (s : List Tok) : parseString s ≠ .error .outOfFuel := by
  unfold parseString; split <;> simp

lemma consumeKw_ne_fuel (k : String) (s : List Tok) :
    consumeKw k s ≠ .error .outOfFuel := by
  unfold consumeKw; split <;> (try split) <;> simp

lemma consumeReserved_ne_fuel (w : String) (s : List Tok) :
    consumeReserved w s ≠ .error .outOfFuel := by
  unfold consumeReserved; split <;> (try split) <;> simp

lemma consumeLParen_ne_fuel (s : List Tok) : consumeLParen s ≠ .error .outOfFuel := by
  unfold consumeLParen; split <;> simp

lemma consumeRParen_ne_fuel (s : List Tok) : consumeRParen s ≠ .error .outOfFuel := by
  unfold consumeRParen; split <;> simp

lemma parseCommentSyntax_length (s : List Tok) :
    (parseCommentSyntax s).2.length ≤ s.length := by
  induction s with
  | nil => simp [parseCommentSyntax]
  | cons t r ih => cases t <;> simp [parseCommentSyntax] <;> omega

/-! ## Lemmas: every parser consumes tokens and never exhausts its fuel -/

lemma parens_length {α : Type} {f : List Tok → Except PErr (α × List Tok)}
    (hf : ∀ s x s', f s = .ok (x, s') → s'.length ≤ s.length)
    {s : List Tok} {x : α} {s' : List Tok}
    (h : parens f s = .ok (x, s')) : s'.length < s.length := by
  unfold parens at h
  rw [bindE_ok] at h
  obtain ⟨s1, h1, h⟩ := h
  rw [bindE_ok] at h
  obtain ⟨⟨x2, s2⟩, h2, h⟩ := h
  rw [bindE_ok] at h
  obtain ⟨s3, h3, h⟩ := h
  simp only [pure, Except.pure, Except.ok.injEq, Prod.mk.injEq] at h
  obtain ⟨rfl, rfl⟩ := h
  have l1 := consumeLParen_length h1
  have l2 := hf _ _ _ h2
  have l3 := consumeRParen_length h3
  omega

lemma parens_ne_fuel {α : Type} {f : List Tok → Except PErr (α × List Tok)}
    (hf : ∀ s, f s ≠ .error .outOfFuel) (s : List Tok) :
    parens f s ≠ .error .outOfFuel := by
  intro h
  unfold parens at h
  rw [bindE_error] at h
  rcases h with h | ⟨s1, h1, h⟩
  · exact consumeLParen_ne_fuel s h
  rw [bindE_error] at h
  rcases h with h | ⟨⟨x2, s2⟩, h2, h⟩
  · exact hf s1 h
  rw [bindE_error] at h
  rcases h with h | ⟨s3, h3, h⟩
  · exact consumeRParen_ne_fuel s2 h
  simp [pure, Except.pure] at h

lemma parseDocumented_length {α : Type} {p : List Tok → Except PErr (α × List Tok)}
    (hp : ∀ s x s', p s = .ok (x, s') → s'.length < s.length)
    {s : List Tok} {d : Documented α} {s' : List Tok}
    (h : parseDocumented p s = .ok (d, s')) : s'.length < s.length := by
  unfold parseDocumented at h
  rcases hcs : parseCommentSyntax s with ⟨c, s1⟩
  rw [hcs] at h
  simp only at h
  cases hp1 : p s1 with
  | error e => rw [hp1] at h; simp at h
  | ok v =>
    obtain ⟨x, s2⟩ := v
    rw [hp1] at h
    simp only [Except.ok.injEq, Prod.mk.injEq] at h
    obtain ⟨-, rfl⟩ := h
    have hc := parseCommentSyntax_length s
    rw [hcs] at hc
    have := hp _ _ _ hp1
    simp at hc
    omega

lemma parseDocumented_ne_fuel {α : Type} {p : List Tok → Except PErr (α × List Tok)}
    (hp : ∀ s, p s ≠ .error .outOfFuel) (s : List Tok) :
    parseDocumented p s ≠ .error .outOfFuel := by
  intro h
  unfold parseDocumented at h
  rcases hcs : parseCommentSyntax s with ⟨c, s1⟩
  rw [hcs] at h
  simp only at h
  cases hp1 : p s1 with
  | error e => rw [hp1] at h; simp at h; exact hp s1 (h ▸ hp1)
  | ok v => rw [hp1] at h; simp at h

lemma parseManyF_length {α : Type} {p : List Tok → Except PErr (α × List Tok)}
    (hp : ∀ s x s', p s = .ok (x, s') → s'.length ≤ s.length) :
    ∀ (fuel : Nat) (s : List Tok) (xs : List α) (s' : List Tok),
      parseManyF p fuel s = .ok (xs, s') → s'.length ≤ s.length := by
  intro fuel
  induction fuel with
  | zero => intro s xs s' h; simp [parseManyF] at h
  | succ n ih =>
    intro s xs s' h
    unfold parseManyF at h
    split at h
    · simp at h
      rw [h.2]
    · cases h1 : p s with
      | error e => rw [h1] at h; simp at h
      | ok v =>
        obtain ⟨x, s1⟩ := v
        rw [h1] at h
        dsimp only at h
        cases h2 : parseManyF p n s1 with
        | error e => rw [h2] at h; simp at h
        | ok v2 =>
          obtain ⟨xs2, s2⟩ := v2
          rw [h2] at h
          simp only [Except.ok.injEq, Prod.mk.injEq] at h
          obtain ⟨-, rfl⟩ := h
          have := hp _ _ _ h1
          have := ih _ _ _ h2
          omega

lemma parseManyF_ne_fuel {α : Type} {p : List Tok → Except PErr (α × List Tok)}
    (hp : ∀ s x s', p s = .ok (x, s') → s'.length < s.length)
    (hnf : ∀ s, p s ≠ .error .outOfFuel) :
    ∀ (fuel : Nat) (s : List Tok), s.length < fuel →
      parseManyF p fuel s ≠ .error .outOfFuel := by
  intro fuel
  induction fuel with
  | zero => intro s hs; omega
  | succ n ih =>
    intro s hs h
    unfold parseManyF at h
    split at h
    · simp at h
    · cases h1 : p s with
      | error e =>
        rw [h1] at h; simp at h; exact hnf s (h ▸ h1)
      | ok v =>
        obtain ⟨x, s1⟩ := v
        rw [h1] at h
        dsimp only at h
        cases h2 : parseManyF p n s1 with
        | error e =>
          rw [h2] at h
          simp at h
          subst h
          exact ih s1 (by have := hp _ _ _ h1; omega) h2
        | ok v2 => rw [h2] at h; simp at h

set_option maxHeartbeats 1000000 in
lemma parseBuiltinType_length {s : List Tok} {b : BuiltinType} {s' : List Tok}
    (h : parseBuiltinType s = .ok (b, s')) : s'.length < s.length := by
  unfold parseBuiltinType at h
  split_ifs at h <;>
    first
      | (rw [mapE_ok] at h; obtain ⟨r, hr, hh⟩ := h; cases hh; exact consumeKw_length hr)
      | simp at h

set_option maxHeartbeats 1000000 in
lemma parseBuiltinType_ne_fuel (s : List Tok) :
    parseBuiltinType s ≠ .error .outOfFuel := by
  intro h
  unfold parseBuiltinType at h
  split_ifs at h <;>
    first
      | (rw [mapE_error] at h; exact consumeKw_ne_fuel _ _ h)
      | simp at h

lemma parseDTF_length :
    ∀ (fuel : Nat) (s : List Tok) (x : DatatypeIdentSyntax) (s' : List Tok),
      parseDTF fuel s = .ok (x, s') → s'.length < s.length := by
  intro fuel
  induction fuel with
  | zero => intro s x s' h; simp [parseDTF] at h
  | succ n ih =>
    intro s x s' h
    unfold parseDTF at h
    split at h
    · cases h1 : parseId s with
      | error e => rw [h1] at h; simp at h
      | ok v =>
        obtain ⟨nm, rest⟩ := v
        rw [h1] at h
        simp only [Except.ok.injEq, Prod.mk.injEq] at h
        obtain ⟨-, rfl⟩ := h
        exact parseId_length h1
    · split at h
      · cases h1 : consumeLParen s with
        | error e => rw [h1] at h; simp at h
        | ok s1 =>
          rw [h1] at h; dsimp only at h
          cases h2 : consumeKw "array" s1 with
          | error e => rw [h2] at h; simp at h
          | ok s2 =>
            rw [h2] at h; dsimp only at h
            cases h3 : parseDTF n s2 with
            | error e => rw [h3] at h; simp at h
            | ok v =>
              obtain ⟨t, s3⟩ := v
              rw [h3] at h; dsimp only at h
              cases h4 : consumeRParen s3 with
              | error e => rw [h4] at h; simp at h
              | ok s4 =>
                rw [h4] at h
                simp only [Except.ok.injEq, Prod.mk.injEq] at h
                obtain ⟨-, rfl⟩ := h
                have l1 := consumeLParen_length h1
                have l2 := consumeKw_length h2
                have l3 := ih _ _ _ h3
                have l4 := consumeRParen_length h4
                omega
      · split at h
        · cases h1 : consumeLParen s with
          | error e => rw [h1] at h; simp at h
          | ok s1 =>
            rw [h1] at h; dsimp only at h
            cases h2 : consumeReserved "@witx" s1 with
            | error e => rw [h2] at h; simp at h
            | ok s2 =>
              rw [h2] at h; dsimp only at h
              split at h
              · cases h3 : consumeKw "const_pointer" s2 with
                | error e => rw [h3] at h; simp at h
                | ok s3 =>
                  rw [h3] at h; dsimp only at h
                  cases h4 : parseDTF n s3 with
                  | error e => rw [h4] at h; simp at h
                  | ok v =>
                    obtain ⟨t, s4⟩ := v
                    rw [h4] at h; dsimp only at h
                    cases h5 : consumeRParen s4 with
                    | error e => rw [h5] at h; simp at h
                    | ok s5 =>
                      rw [h5] at h
                      simp only [Except.ok.injEq, Prod.mk.injEq] at h
                      obtain ⟨-, rfl⟩ := h
                      have l1 := consumeLParen_length h1
                      have l2 := consumeReserved_length h2
                      have l3 := consumeKw_length h3
                      have l4 := ih _ _ _ h4
                      have l5 := consumeRParen_length h5
                      omega
              · cases h3 : consumeKw "pointer" s2 with
                | error e => rw [h3] at h; simp at h
                | ok s3 =>
                  rw [h3] at h; dsimp only at h
                  cases h4 : parseDTF n s3 with
                  | error e => rw [h4] at h; simp at h
                  | ok v =>
                    obtain ⟨t, s4⟩ := v
                    rw [h4] at h; dsimp only at h
                    cases h5 : consumeRParen s4 with
                    | error e => rw [h5] at h; simp at h
                    | ok s5 =>
                      rw [h5] at h
                      simp only [Except.ok.injEq, Prod.mk.injEq] at h
                      obtain ⟨-, rfl⟩ := h
                      have l1 := consumeLParen_length h1
                      have l2 := consumeReserved_length h2
                      have l3 := consumeKw_length h3
                      have l4 := ih _ _ _ h4
                      have l5 := consumeRParen_length h5
                      omega
        · cases h1 : parseBuiltinType s with
          | error e => rw [h1] at h; simp at h
          | ok v =>
            obtain ⟨bt, rest⟩ := v
            rw [h1] at h
            simp only [Except.ok.injEq, Prod.mk.injEq] at h
            obtain ⟨-, rfl⟩ := h
            exact parseBuiltinType_length h1

lemma parseDTF_ne_fuel :
    ∀ (fuel : Nat) (s : List Tok), s.length < fuel →
      parseDTF fuel s ≠ .error .outOfFuel := by
  intro fuel
  induction fuel with
  | zero => intro s hs; omega
  | succ n ih =>
    intro s hs h
    unfold parseDTF at h
    split at h
    · cases h1 : parseId s with
      | error e => rw [h1] at h; simp at h; exact parseId_ne_fuel s (h ▸ h1)
      | ok v => obtain ⟨nm, rest⟩ := v; rw [h1] at h; simp at h
    · split at h
      · cases h1 : consumeLParen s with
        | error e => rw [h1] at h; simp at h; exact consumeLParen_ne_fuel s (h ▸ h1)
        | ok s1 =>
          rw [h1] at h; dsimp only at h
          cases h2 : consumeKw "array" s1 with
          | error e => rw [h2] at h; simp at h; exact consumeKw_ne_fuel _ s1 (h ▸ h2)
          | ok s2 =>
            rw [h2] at h; dsimp only at h
            cases h3 : parseDTF n s2 with
            | error e =>
              rw [h3] at h; simp at h
              subst h
              have l1 := consumeLParen_length h1
              have l2 := consumeKw_length h2
              exact ih s2 (by omega) h3
            | ok v =>
              obtain ⟨t, s3⟩ := v
              rw [h3] at h; dsimp only at h
              cases h4 : consumeRParen s3 with
              | error e => rw [h4] at h; simp at h; exact consumeRParen_ne_fuel s3 (h ▸ h4)
              | ok s4 => rw [h4] at h; simp at h
      · split at h
        · cases h1 : consumeLParen s with
          | error e => rw [h1] at h; simp at h; exact consumeLParen_ne_fuel s (h ▸ h1)
          | ok s1 =>
            rw [h1] at h; dsimp only at h
            cases h2 : consumeReserved "@witx" s1 with
            | error e => rw [h2] at h; simp at h; exact consumeReserved_ne_fuel _ s1 (h ▸ h2)
            | ok s2 =>
              rw [h2] at h; dsimp only at h
              split at h
              · cases h3 : consumeKw "const_pointer" s2 with
                | error e => rw [h3] at h; simp at h; exact consumeKw_ne_fuel _ s2 (h ▸ h3)
                | ok s3 =>
                  rw [h3] at h; dsimp only at h
                  cases h4 : parseDTF n s3 with
                  | error e =>
                    rw [h4] at h; simp at h
                    subst h
                    have l1 := consumeLParen_length h1
                    have l2 := consumeReserved_length h2
                    have l3 := consumeKw_length h3
                    exact ih s3 (by omega) h4
                  | ok v =>
                    obtain ⟨t, s4⟩ := v
                    rw [h4] at h; dsimp only at h
                    cases h5 : consumeRParen s4 with
                    | error e => rw [h5] at h; simp at h; exact consumeRParen_ne_fuel s4 (h ▸ h5)
                    | ok s5 => rw [h5] at h; simp at h
              · cases h3 : consumeKw "pointer" s2 with
                | error e => rw [h3] at h; simp at h; exact consumeKw_ne_fuel _ s2 (h ▸ h3)
                | ok s3 =>
                  rw [h3] at h; dsimp only at h
                  cases h4 : parseDTF n s3 with
                  | error e =>
                    rw [h4] at h; simp at h
                    subst h
                    have l1 := consumeLParen_length h1
                    have l2 := consumeReserved_length h2
                    have l3 := consumeKw_length h3
                    exact ih s3 (by omega) h4
                  | ok v =>
                    obtain ⟨t, s4⟩ := v
                    rw [h4] at h; dsimp only at h
                    cases h5 : consumeRParen s4 with
                    | error e => rw [h5] at h; simp at h; exact consumeRParen_ne_fuel s4 (h ▸ h5)
                    | ok s5 => rw [h5] at h; simp at h
        · cases h1 : parseBuiltinType s with
          | error e => rw [h1] at h; simp at h; exact parseBuiltinType_ne_fuel s (h ▸ h1)
          | ok v => obtain ⟨bt, rest⟩ := v; rw [h1] at h; simp at h

lemma parseDatatypeIdentSyntax_length {s : List Tok} {x : DatatypeIdentSyntax}
    {s' : List Tok} (h : parseDatatypeIdentSyntax s = .ok (x, s')) :
    s'.length < s.length :=
  parseDTF_length _ _ _ _ h

lemma parseDatatypeIdentSyntax_ne_fuel (s : List Tok) :
    parseDatatypeIdentSyntax s ≠ .error .outOfFuel :=
  parseDTF_ne_fuel _ s (by omega)

lemma parseId_noninc : ∀ (s : List Tok) (x : String) (s' : List Tok),
    parseId s = .ok (x, s') → s'.length ≤ s.length :=
  fun _ _ _ h => Nat.le_of_lt (parseId_length h)

lemma docId_length : ∀ (s : List Tok) (x : Documented String) (s' : List Tok),
    parseDocumented parseId s = .ok (x, s') → s'.length < s.length :=
  fun _ _ _ h => parseDocumented_length (fun _ _ _ hh => parseId_length hh) h

lemma parseEnumSyntax_length {s : List Tok} {x : EnumSyntax} {s' : List Tok}
    (h : parseEnumSyntax s = .ok (x, s')) : s'.length < s.length := by
  unfold parseEnumSyntax at h
  rw [bindE_ok] at h
  obtain ⟨s1, h1, h⟩ := h
  dsimp only at h
  rw [bindE_ok] at h
  obtain ⟨⟨r, s2⟩, h2, h⟩ := h
  dsimp only at h
  rw [bindE_ok] at h
  obtain ⟨⟨m, s3⟩, h3, h⟩ := h
  dsimp only at h
  rw [bindE_ok] at h
  obtain ⟨⟨ms, s4⟩, h4, h⟩ := h
  simp only [pure, Except.pure, Except.ok.injEq, Prod.mk.injEq] at h
  obtain ⟨-, rfl⟩ := h
  have l1 := consumeKw_length h1
  have l2 := parseBuiltinType_length h2
  have l3 := docId_length _ _ _ h3
  have l4 := parseManyF_length
    (fun a b c hh => Nat.le_of_lt (docId_length a b c hh)) _ _ _ _ h4
  omega

lemma parseEnumSyntax_ne_fuel (s : List Tok) :
    parseEnumSyntax s ≠ .error .outOfFuel := by
  intro h
  unfold parseEnumSyntax at h
  rw [bindE_error] at h
  rcases h with h | ⟨s1, h1, h⟩
  · exact consumeKw_ne_fuel _ _ h
  dsimp only at h
  rw [bindE_error] at h
  rcases h with h | ⟨⟨r, s2⟩, h2, h⟩
  · exact parseBuiltinType_ne_fuel _ h
  dsimp only at h
  rw [bindE_error] at h
  rcases h with h | ⟨⟨m, s3⟩, h3, h⟩
  · exact parseDocumented_ne_fuel parseId_ne_fuel _ h
  dsimp only at h
  rw [bindE_error] at h
  rcases h with h | ⟨⟨ms, s4⟩, h4, h⟩
  · exact parseManyF_ne_fuel docId_length
      (parseDocumented_ne_fuel parseId_ne_fuel) _ _ (by omega) h
  simp [pure, Except.pure] at h

lemma parseFlagsSyntax_length {s : List Tok} {x : FlagsSyntax} {s' : List Tok}
    (h : parseFlagsSyntax s = .ok (x, s')) : s'.length < s.length := by
  unfold parseFlagsSyntax at h
  rw [bindE_ok] at h
  obtain ⟨s1, h1, h⟩ := h
  dsimp only at h
  rw [bindE_ok] at h
  obtain ⟨⟨r, s2⟩, h2, h⟩ := h
  dsimp only at h
  rw [bindE_ok] at h
  obtain ⟨⟨fs, s3⟩, h3, h⟩ := h
  simp only [pure, Except.pure, Except.ok.injEq, Prod.mk.injEq] at h
  obtain ⟨-, rfl⟩ := h
  have l1 := consumeKw_length h1
  have l2 := parseBuiltinType_length h2
  have l3 := parseManyF_length
    (fun a b c hh => Nat.le_of_lt (docId_length a b c hh)) _ _ _ _ h3
  omega

lemma parseFlagsSyntax_ne_fuel (s : List Tok) :
    parseFlagsSyntax s ≠ .error .outOfFuel := by
  intro h
  unfold parseFlagsSyntax at h
  rw [bindE_error] at h
  rcases h with h | ⟨s1, h1, h⟩
  · exact consumeKw_ne_fuel _ _ h
  dsimp only at h
  rw [bindE_error] at h
  rcases h with h | ⟨⟨r, s2⟩, h2, h⟩
  · exact parseBuiltinType_ne_fuel _ h
  dsimp only at h
  rw [bindE_error] at h
  rcases h with h | ⟨⟨fs, s3⟩, h3, h⟩
  · exact parseManyF_ne_fuel docId_length
      (parseDocumented_ne_fuel parseId_ne_fuel) _ _ (by omega) h
  simp [pure, Except.pure] at h

lemma parseFieldSyntax_length {s : List Tok} {x : FieldSyntax} {s' : List Tok}
    (h : parseFieldSyntax s = .ok (x, s')) : s'.length < s.length := by
  unfold parseFieldSyntax at h
  refine parens_length ?_ h
  intro a b c hh
  rw [bindE_ok] at hh
  obtain ⟨a1, g1, hh⟩ := hh
  dsimp only at hh
  rw [bindE_ok] at hh
  obtain ⟨⟨n, a2⟩, g2, hh⟩ := hh
  dsimp only at hh
  rw [bindE_ok] at hh
  obtain ⟨⟨t, a3⟩, g3, hh⟩ := hh
  simp only [pure, Except.pure, Except.ok.injEq, Prod.mk.injEq] at hh
  obtain ⟨-, rfl⟩ := hh
  have l1 := consumeKw_length g1
  have l2 := parseId_length g2
  have l3 := parseDatatypeIdentSyntax_length g3
  omega

lemma parseFieldSyntax_ne_fuel (s : List Tok) :
    parseFieldSyntax s ≠ .error .outOfFuel := by
  unfold parseFieldSyntax
  refine parens_ne_fuel ?_ s
  intro a h
  rw [bindE_error] at h
  rcases h with h | ⟨a1, g1, h⟩
  · exact consumeKw_ne_fuel _ _ h
  dsimp only at h
  rw [bindE_error] at h
  rcases h with h | ⟨⟨n, a2⟩, g2, h⟩
  · exact parseId_ne_fuel _ h
  dsimp only at h
  rw [bindE_error] at h
  rcases h with h | ⟨⟨t, a3⟩, g3, h⟩
  · exact parseDatatypeIdentSyntax_ne_fuel _ h
  simp [pure, Except.pure] at h

lemma docField_length : ∀ (s : List Tok) (x : Documented FieldSyntax) (s' : List Tok),
    parseDocumented parseFieldSyntax s = .ok (x, s') → s'.length < s.length :=
  fun _ _ _ h => parseDocumented_length (fun _ _ _ hh => parseFieldSyntax_length hh) h

lemma parseStructSyntax_length {s : List Tok} {x : StructSyntax} {s' : List Tok}
    (h : parseStructSyntax s = .ok (x, s')) : s'.length < s.length := by
  unfold parseStructSyntax at h
  rw [bindE_ok] at h
  obtain ⟨s1, h1, h⟩ := h
  dsimp only at h
  rw [bindE_ok] at h
  obtain ⟨⟨f, s2⟩, h2, h⟩ := h
  dsimp only at h
  rw [bindE_ok] at h
  obtain ⟨⟨fs, s3⟩, h3, h⟩ := h
  simp only [pure, Except.pure, Except.ok.injEq, Prod.mk.injEq] at h
  obtain ⟨-, rfl⟩ := h
  have l1 := consumeKw_length h1
  have l2 := docField_length _ _ _ h2
  have l3 := parseManyF_length
    (fun a b c hh => Nat.le_of_lt (docField_length a b c hh)) _ _ _ _ h3
  omega

lemma parseStructSyntax_ne_fuel (s : List Tok) :
    parseStructSyntax s ≠ .error .outOfFuel := by
  intro h
  unfold parseStructSyntax at h
  rw [bindE_error] at h
  rcases h with h | ⟨s1, h1, h⟩
  · exact consumeKw_ne_fuel _ _ h
  dsimp only at h
  rw [bindE_error] at h
  rcases h with h | ⟨⟨f, s2⟩, h2, h⟩
  · exact parseDocumented_ne_fuel parseFieldSyntax_ne_fuel _ h
  dsimp only at h
  rw [bindE_error] at h
  rcases h with h | ⟨⟨fs, s3⟩, h3, h⟩
  · exact parseManyF_ne_fuel docField_length
      (parseDocumented_ne_fuel parseFieldSyntax_ne_fuel) _ _ (by omega) h
  simp [pure, Except.pure] at h

lemma parseUnionSyntax_length {s : List Tok} {x : UnionSyntax} {s' : List Tok}
    (h : parseUnionSyntax s = .ok (x, s')) : s'.length < s.length := by
  unfold parseUnionSyntax at h
  rw [bindE_ok] at h
  obtain ⟨s1, h1, h⟩ := h
  dsimp only at h
  rw [bindE_ok] at h
  obtain ⟨⟨f, s2⟩, h2, h⟩ := h
  dsimp only at h
  rw [bindE_ok] at h
  obtain ⟨⟨fs, s3⟩, h3, h⟩ := h
  simp only [pure, Except.pure, Except.ok.injEq, Prod.mk.injEq] at h
  obtain ⟨-, rfl⟩ := h
  have l1 := consumeKw_length h1
  have l2 := docField_length _ _ _ h2
  have l3 := parseManyF_length
    (fun a b c hh => Nat.le_of_lt (docField_length a b c hh)) _ _ _ _ h3
  omega

lemma parseUnionSyntax_ne_fuel (s : List Tok) :
    parseUnionSyntax s ≠ .error .outOfFuel := by
  intro h
  unfold parseUnionSyntax at h
  rw [bindE_error] at h
  rcases h with h | ⟨s1, h1, h⟩
  · exact consumeKw_ne_fuel _ _ h
  dsimp only at h
  rw [bindE_error] at h
  rcases h with h | ⟨⟨f, s2⟩, h2, h⟩
  · exact parseDocumented_ne_fuel parseFieldSyntax_ne_fuel _ h
  dsimp only at h
  rw [bindE_error] at h
  rcases h with h | ⟨⟨fs, s3⟩, h3, h⟩
  · exact parseManyF_ne_fuel docField_length
      (parseDocumented_ne_fuel parseFieldSyntax_ne_fuel) _ _ (by omega) h
  simp [pure, Except.pure] at h

lemma parseHandleSyntax_length {s : List Tok} {x : HandleSyntax} {s' : List Tok}
    (h : parseHandleSyntax s = .ok (x, s')) : s'.length < s.length := by
  unfold parseHandleSyntax at h
  rw [bindE_ok] at h
  obtain ⟨s1, h1, h⟩ := h
  dsimp only at h
  rw [bindE_ok] at h
  obtain ⟨⟨ts, s2⟩, h2, h⟩ := h
  simp only [pure, Except.pure, Except.ok.injEq, Prod.mk.injEq] at h
  obtain ⟨-, rfl⟩ := h
  have l1 := consumeKw_length h1
  have l2 := parseManyF_length parseId_noninc _ _ _ _ h2
  omega

lemma parseHandleSyntax_ne_fuel (s : List Tok) :
    parseHandleSyntax s ≠ .error .outOfFuel := by
  intro h
  unfold parseHandleSyntax at h
  rw [bindE_error] at h
  rcases h with h | ⟨s1, h1, h⟩
  · exact consumeKw_ne_fuel _ _ h
  dsimp only at h
  rw [bindE_error] at h
  rcases h with h | ⟨⟨ts, s2⟩, h2, h⟩
  · exact parseManyF_ne_fuel (fun a b c hh => parseId_length hh)
      parseId_ne_fuel _ _ (by omega) h
  simp [pure, Except.pure] at h

lemma parseTypedefSyntax_length {s : List Tok} {x : TypedefSyntax} {s' : List Tok}
    (h : parseTypedefSyntax s = .ok (x, s')) : s'.length < s.length := by
  unfold parseTypedefSyntax at h
  split at h
  · cases h1 : parseDatatypeIdentSyntax s with
    | error e => rw [h1] at h; simp at h
    | ok v =>
      obtain ⟨t, rest⟩ := v
      rw [h1] at h
      simp only [Except.ok.injEq, Prod.mk.injEq] at h
      obtain ⟨-, rfl⟩ := h
      exact parseDatatypeIdentSyntax_length h1
  · refine parens_length ?_ h
    intro a b c hh
    split_ifs at hh <;>
      first
        | (rw [mapE_ok] at hh
           obtain ⟨⟨y, r⟩, hr, hy⟩ := hh
           cases hy
           first
             | exact Nat.le_of_lt (parseEnumSyntax_length hr)
             | exact Nat.le_of_lt (parseFlagsSyntax_length hr)
             | exact Nat.le_of_lt (parseStructSyntax_length hr)
             | exact Nat.le_of_lt (parseUnionSyntax_length hr)
             | exact Nat.le_of_lt (parseHandleSyntax_length hr))
        | simp at hh

lemma parseTypedefSyntax_ne_fuel (s : List Tok) :
    parseTypedefSyntax s ≠ .error .outOfFuel := by
  unfold parseTypedefSyntax
  split
  · intro h
    cases h1 : parseDatatypeIdentSyntax s with
    | error e => rw [h1] at h; simp at h; exact parseDatatypeIdentSyntax_ne_fuel s (h ▸ h1)
    | ok v => obtain ⟨t, rest⟩ := v; rw [h1] at h; simp at h
  · refine parens_ne_fuel ?_ s
    intro a hh
    split_ifs at hh <;>
      first
        | (rw [mapE_error] at hh
           first
             | exact parseEnumSyntax_ne_fuel _ hh
             | exact parseFlagsSyntax_ne_fuel _ hh
             | exact parseStructSyntax_ne_fuel _ hh
             | exact parseUnionSyntax_ne_fuel _ hh
             | exact parseHandleSyntax_ne_fuel _ hh)
        | simp at hh

lemma parseTypenameSyntax_length {s : List Tok} {x : TypenameSyntax} {s' : List Tok}
    (h : parseTypenameSyntax s = .ok (x, s')) : s'.length < s.length := by
  unfold parseTypenameSyntax at h
  rw [bindE_ok] at h
  obtain ⟨s1, h1, h⟩ := h
  dsimp only at h
  rw [bindE_ok] at h
  obtain ⟨⟨i, s2⟩, h2, h⟩ := h
  dsimp only at h
  rw [bindE_ok] at h
  obtain ⟨⟨d, s3⟩, h3, h⟩ := h
  simp only [pure, Except.pure, Except.ok.injEq, Prod.mk.injEq] at h
  obtain ⟨-, rfl⟩ := h
  have l1 := consumeKw_length h1
  have l2 := parseId_length h2
  have l3 := parseTypedefSyntax_length h3
  omega

lemma parseTypenameSyntax_ne_fuel (s : List Tok) :
    parseTypenameSyntax s ≠ .error .outOfFuel := by
  intro h
  unfold parseTypenameSyntax at h
  rw [bindE_error] at h
  rcases h with h | ⟨s1, h1, h⟩
  · exact consumeKw_ne_fuel _ _ h
  dsimp only at h
  rw [bindE_error] at h
  rcases h with h | ⟨⟨i, s2⟩, h2, h⟩
  · exact parseId_ne_fuel _ h
  dsimp only at h
  rw [bindE_error] at h
  rcases h with h | ⟨⟨d, s3⟩, h3, h⟩
  · exact parseTypedefSyntax_ne_fuel _ h
  simp [pure, Except.pure] at h

lemma parseImportTypeSyntax_length {s : List Tok} {x : ImportTypeSyntax} {s' : List Tok}
    (h : parseImportTypeSyntax s = .ok (x, s')) : s'.length < s.length := by
  unfold parseImportTypeSyntax at h
  rw [mapE_ok] at h
  obtain ⟨r, hr, hh⟩ := h
  cases hh
  exact consumeKw_length hr

lemma parseImportTypeSyntax_ne_fuel (s : List Tok) :
    parseImportTypeSyntax s ≠ .error .outOfFuel := by
  intro h
  unfold parseImportTypeSyntax at h
  rw [mapE_error] at h
  exact consumeKw_ne_fuel _ _ h

lemma parseModuleImportSyntax_length {s : List Tok} {x : ModuleImportSyntax}
    {s' : List Tok} (h : parseModuleImportSyntax s = .ok (x, s')) :
    s'.length < s.length := by
  unfold parseModuleImportSyntax at h
  rw [bindE_ok] at h
  obtain ⟨s1, h1, h⟩ := h
  dsimp only at h
  rw [bindE_ok] at h
  obtain ⟨⟨n, s2⟩, h2, h⟩ := h
  dsimp only at h
  rw [bindE_ok] at h
  obtain ⟨⟨t, s3⟩, h3, h⟩ := h
  simp only [pure, Except.pure, Except.ok.injEq, Prod.mk.injEq] at h
  obtain ⟨-, rfl⟩ := h
  have l1 := consumeKw_length h1
  have l2 := parseString_length h2
  have l3 := parens_length
    (fun a b c hh => Nat.le_of_lt (parseImportTypeSyntax_length hh)) h3
  omega

lemma parseModuleImportSyntax_ne_fuel (s : List Tok) :
    parseModuleImportSyntax s ≠ .error .outOfFuel := by
  intro h
  unfold parseModuleImportSyntax at h
  rw [bindE_error] at h
  rcases h with h | ⟨s1, h1, h⟩
  · exact consumeKw_ne_fuel _ _ h
  dsimp only at h
  rw [bindE_error] at h
  rcases h with h | ⟨⟨n, s2⟩, h2, h⟩
  · exact parseString_ne_fuel _ h
  dsimp only at h
  rw [bindE_error] at h
  rcases h with h | ⟨⟨t, s3⟩, h3, h⟩
  · exact parens_ne_fuel parseImportTypeSyntax_ne_fuel _ h
  simp [pure, Except.pure] at h

lemma parseInterfaceFuncField_length {s : List Tok} {x : InterfaceFuncField}
    {s' : List Tok} (h : parseInterfaceFuncField s = .ok (x, s')) :
    s'.length < s.length := by
  unfold parseInterfaceFuncField at h
  refine parens_length ?_ h
  intro a b c hh
  split_ifs at hh <;>
    first
      | (rw [bindE_ok] at hh
         obtain ⟨a1, g1, hh⟩ := hh
         dsimp only at hh
         rw [bindE_ok] at hh
         obtain ⟨⟨n, a2⟩, g2, hh⟩ := hh
         dsimp only at hh
         rw [bindE_ok] at hh
         obtain ⟨⟨t, a3⟩, g3, hh⟩ := hh
         simp only [pure, Except.pure, Except.ok.injEq, Prod.mk.injEq] at hh
         obtain ⟨-, rfl⟩ := hh
         have l1 := consumeKw_length g1
         have l2 := parseId_length g2
         have l3 := parseDatatypeIdentSyntax_length g3
         omega)
      | simp at hh

lemma parseInterfaceFuncField_ne_fuel (s : List Tok) :
    parseInterfaceFuncField s ≠ .error .outOfFuel := by
  unfold parseInterfaceFuncField
  refine parens_ne_fuel ?_ s
  intro a hh
  split_ifs at hh <;>
    first
      | (rw [bindE_error] at hh
         rcases hh with hh | ⟨a1, g1, hh⟩
         · exact consumeKw_ne_fuel _ _ hh
         dsimp only at hh
         rw [bindE_error] at hh
         rcases hh with hh | ⟨⟨n, a2⟩, g2, hh⟩
         · exact parseId_ne_fuel _ hh
         dsimp only at hh
         rw [bindE_error] at hh
         rcases hh with hh | ⟨⟨t, a3⟩, g3, hh⟩
         · exact parseDatatypeIdentSyntax_ne_fuel _ hh
         simp [pure, Except.pure] at hh)
      | simp at hh

lemma docFuncField_length :
    ∀ (s : List Tok) (x : Documented InterfaceFuncField) (s' : List Tok),
      parseDocumented parseInterfaceFuncField s = .ok (x, s') → s'.length < s.length :=
  fun _ _ _ h =>
    parseDocumented_length (fun _ _ _ hh => parseInterfaceFuncField_length hh) h

lemma parseInterfaceFuncSyntax_length {s : List Tok} {x : InterfaceFuncSyntax}
    {s' : List Tok} (h : parseInterfaceFuncSyntax s = .ok (x, s')) :
    s'.length < s.length := by
  unfold parseInterfaceFuncSyntax at h
  rw [bindE_ok] at h
  obtain ⟨s1, h1, h⟩ := h
  dsimp only at h
  rw [bindE_ok] at h
  obtain ⟨s2, h2, h⟩ := h
  try dsimp only at h
  rw [bindE_ok] at h
  obtain ⟨⟨ex, s3⟩, h3, h⟩ := h
  dsimp only at h
  rw [bindE_ok] at h
  obtain ⟨⟨fs, s4⟩, h4, h⟩ := h
  rcases hpr : partitionFuncFields fs with ⟨ps, rs⟩
  rw [hpr] at h
  simp only [pure, Except.pure, Except.ok.injEq, Prod.mk.injEq] at h
  obtain ⟨-, rfl⟩ := h
  have l1 := consumeReserved_length h1
  have l2 := consumeKw_length h2
  have l3 : s3.length < s2.length := by
    refine parens_length ?_ h3
    intro a b c hh
    rw [bindE_ok] at hh
    obtain ⟨a1, g1, hh⟩ := hh
    try dsimp only at hh
    rw [bindE_ok] at hh
    obtain ⟨⟨e2, a2⟩, g2, hh⟩ := hh
    simp only [pure, Except.pure, Except.ok.injEq, Prod.mk.injEq] at hh
    obtain ⟨-, rfl⟩ := hh
    have m1 := consumeKw_length g1
    have m2 := parseString_length g2
    omega
  have l4 := parseManyF_length
    (fun a b c hh => Nat.le_of_lt (docFuncField_length a b c hh)) _ _ _ _ h4
  omega

lemma parseInterfaceFuncSyntax_ne_fuel (s : List Tok) :
    parseInterfaceFuncSyntax s ≠ .error .outOfFuel := by
  intro h
  unfold parseInterfaceFuncSyntax at h
  rw [bindE_error] at h
  rcases h with h | ⟨s1, h1, h⟩
  · exact consumeReserved_ne_fuel _ _ h
  dsimp only at h
  rw [bindE_error] at h
  rcases h with h | ⟨s2, h2, h⟩
  · exact consumeKw_ne_fuel _ _ h
  try dsimp only at h
  rw [bindE_error] at h
  rcases h with h | ⟨⟨ex, s3⟩, h3, h⟩
  · refine parens_ne_fuel ?_ s2 h
    intro a hh
    rw [bindE_error] at hh
    rcases hh with hh | ⟨a1, g1, hh⟩
    · exact consumeKw_ne_fuel _ _ hh
    try dsimp only at hh
    rw [bindE_error] at hh
    rcases hh with hh | ⟨⟨e2, a2⟩, g2, hh⟩
    · exact parseString_ne_fuel _ hh
    simp [pure, Except.pure] at hh
  dsimp only at h
  rw [bindE_error] at h
  rcases h with h | ⟨⟨fs, s4⟩, h4, h⟩
  · exact parseManyF_ne_fuel docFuncField_length
      (parseDocumented_ne_fuel parseInterfaceFuncField_ne_fuel) _ _ (by omega) h
  rcases hpr : partitionFuncFields fs with ⟨ps, rs⟩
  rw [hpr] at h
  simp [pure, Except.pure] at h

lemma parseModuleDeclSyntax_length {s : List Tok} {x : ModuleDeclSyntax}
    {s' : List Tok} (h : parseModuleDeclSyntax s = .ok (x, s')) :
    s'.length < s.length := by
  unfold parseModuleDeclSyntax at h
  refine parens_length ?_ h
  intro a b c hh
  split_ifs at hh <;>
    first
      | (rw [mapE_ok] at hh
         obtain ⟨⟨y, r⟩, hr, hy⟩ := hh
         cases hy
         first
           | exact Nat.le_of_lt (parseModuleImportSyntax_length hr)
           | exact Nat.le_of_lt (parseInterfaceFuncSyntax_length hr))
      | simp at hh

lemma parseModuleDeclSyntax_ne_fuel (s : List Tok) :
    parseModuleDeclSyntax s ≠ .error .outOfFuel := by
  unfold parseModuleDeclSyntax
  refine parens_ne_fuel ?_ s
  intro a hh
  split_ifs at hh <;>
    first
      | (rw [mapE_error] at hh
         first
           | exact parseModuleImportSyntax_ne_fuel _ hh
           | exact parseInterfaceFuncSyntax_ne_fuel _ hh)
      | simp at hh

lemma docModuleDecl_length :
    ∀ (s : List Tok) (x : Documented ModuleDeclSyntax) (s' : List Tok),
      parseDocumented parseModuleDeclSyntax s = .ok (x, s') → s'.length < s.length :=
  fun _ _ _ h =>
    parseDocumented_length (fun _ _ _ hh => parseModuleDeclSyntax_length hh) h

lemma parseModuleSyntax_length {s : List Tok} {x : ModuleSyntax} {s' : List Tok}
    (h : parseModuleSyntax s = .ok (x, s')) : s'.length < s.length := by
  unfold parseModuleSyntax at h
  rw [bindE_ok] at h
  obtain ⟨s1, h1, h⟩ := h
  dsimp only at h
  rw [bindE_ok] at h
  obtain ⟨⟨n, s2⟩, h2, h⟩ := h
  dsimp only at h
  rw [bindE_ok] at h
  obtain ⟨⟨ds, s3⟩, h3, h⟩ := h
  simp only [pure, Except.pure, Except.ok.injEq, Prod.mk.injEq] at h
  obtain ⟨-, rfl⟩ := h
  have l1 := consumeKw_length h1
  have l2 := parseId_length h2
  have l3 := parseManyF_length
    (fun a b c hh => Nat.le_of_lt (docModuleDecl_length a b c hh)) _ _ _ _ h3
  omega

lemma parseModuleSyntax_ne_fuel (s : List Tok) :
    parseModuleSyntax s ≠ .error .outOfFuel := by
  intro h
  unfold parseModuleSyntax at h
  rw [bindE_error] at h
  rcases h with h | ⟨s1, h1, h⟩
  · exact consumeKw_ne_fuel _ _ h
  dsimp only at h
  rw [bindE_error] at h
  rcases h with h | ⟨⟨n, s2⟩, h2, h⟩
  · exact parseId_ne_fuel _ h
  dsimp only at h
  rw [bindE_error] at h
  rcases h with h | ⟨⟨ds, s3⟩, h3, h⟩
  · exact parseManyF_ne_fuel docModuleDecl_length
      (parseDocumented_ne_fuel parseModuleDeclSyntax_ne_fuel) _ _ (by omega) h
  simp [pure, Except.pure] at h

lemma parseDeclSyntax_length {s : List Tok} {x : DeclSyntax} {s' : List Tok}
    (h : parseDeclSyntax s = .ok (x, s')) : s'.length < s.length := by
  unfold parseDeclSyntax at h
  split_ifs at h <;>
    first
      | (rw [mapE_ok] at h
         obtain ⟨⟨y, r⟩, hr, hy⟩ := h
         cases hy
         first
           | exact parseModuleSyntax_length hr
           | exact parseTypenameSyntax_length hr)
      | simp at h

lemma parseDeclSyntax_ne_fuel (s : List Tok) :
    parseDeclSyntax s ≠ .error .outOfFuel := by
  intro h
  unfold parseDeclSyntax at h
  split_ifs at h <;>
    first
      | (rw [mapE_error] at h
         first
           | exact parseModuleSyntax_ne_fuel _ h
           | exact parseTypenameSyntax_ne_fuel _ h)
      | simp at h

lemma parseTopLevelSyntax_length {s : List Tok} {x : TopLevelSyntax} {s' : List Tok}
    (h : parseTopLevelSyntax s = .ok (x, s')) : s'.length < s.length := by
  unfold parseTopLevelSyntax at h
  refine parens_length ?_ h
  intro a b c hh
  split_ifs at hh
  · rw [bindE_ok] at hh
    obtain ⟨a1, g1, hh⟩ := hh
    dsimp only at hh
    rw [bindE_ok] at hh
    obtain ⟨⟨u, a2⟩, g2, hh⟩ := hh
    simp only [pure, Except.pure, Except.ok.injEq, Prod.mk.injEq] at hh
    obtain ⟨-, rfl⟩ := hh
    have l1 := consumeKw_length g1
    have l2 := parseString_length g2
    omega
  · rw [mapE_ok] at hh
    obtain ⟨⟨y, r⟩, hr, hy⟩ := hh
    cases hy
    exact Nat.le_of_lt (parseDeclSyntax_length hr)

lemma parseTopLevelSyntax_ne_fuel (s : List Tok) :
    parseTopLevelSyntax s ≠ .error .outOfFuel := by
  unfold parseTopLevelSyntax
  refine parens_ne_fuel ?_ s
  intro a hh
  split_ifs at hh
  · rw [bindE_error] at hh
    rcases hh with hh | ⟨a1, g1, hh⟩
    · exact consumeKw_ne_fuel _ _ hh
    dsimp only at hh
    rw [bindE_error] at hh
    rcases hh with hh | ⟨⟨u, a2⟩, g2, hh⟩
    · exact parseString_ne_fuel _ hh
    simp [pure, Except.pure] at hh
  · rw [mapE_error] at hh
    exact parseDeclSyntax_ne_fuel _ hh

/-! ## The claim theorems -/

/-- C7: equality of `ModuleImportSyntax` and `InterfaceFuncSyntax` excludes
the stored source-location fields: two imports with identical name and type
of import but different `name_loc` spans compare equal, and two interface
functions with identical export name, params and results but different
`export_loc` spans compare equal. -/
theorem moduleImport_interfaceFunc_eq_ignores_loc :
    (∀ (n : String) (l1 l2 : Nat) (t : ImportTypeSyntax),
        moduleImportEq ⟨n, l1, t⟩ ⟨n, l2, t⟩ = true)
      ∧ ∀ (e : String) (l1 l2 : Nat) (ps rs : List (Documented FieldSyntax)),
          interfaceFuncEq ⟨e, l1, ps, rs⟩ ⟨e, l2, ps, rs⟩ = true := by
  constructor
  · intro n l1 l2 t
    simp [moduleImportEq]
  · intro e l1 l2 ps rs
    simp [interfaceFuncEq]

/-- C3: minimum-cardinality contracts of the type-definition body parsers:
an enum body with zero members fails (the member-identifier parse fails at
the end of the form), struct and union bodies with zero fields fail (the
field parse expects `(` and meets the end of the form), `(flags u32)` with
zero flag names succeeds with an empty flags sequence, and
`(struct (field $a u8))` succeeds with exactly one field of type
`Builtin U8`. -/
theorem typedefBody_cardinality :
    parseTypedefSyntax [Tok.lp, Tok.kw "enum", Tok.kw "u8", Tok.rp] = .error .expectedId
  ∧ parseTypedefSyntax [Tok.lp, Tok.kw "struct", Tok.rp] = .error .expectedLParen
  ∧ parseTypedefSyntax [Tok.lp, Tok.kw "union", Tok.rp] = .error .expectedLParen
  ∧ parseTypedefSyntax [Tok.lp, Tok.kw "flags", Tok.kw "u32", Tok.rp]
      = .ok (.Flags ⟨.U32, []⟩, [])
  ∧ parseTypedefSyntax
      [Tok.lp, Tok.kw "struct", Tok.lp, Tok.kw "field", Tok.id "a", Tok.kw "u8",
       Tok.rp, Tok.rp]
      = .ok (.Struct ⟨[⟨⟨[]⟩, ⟨"a", .Builtin .U8⟩⟩]⟩, []) :=
  ⟨rfl, rfl, rfl, rfl, rfl⟩

/-- C9: `TopLevelDocument::parse` terminates on every finite input: every
successful iteration of its while-not-empty loop consumes at least one
token (each top-level form is a non-empty parenthesised construct), so the
whole-document parse, whose iteration bound is `length + 1`, never runs
out of fuel — on any input it either returns a document or propagates an
iteration's error. -/
theorem topLevelDocument_terminates :
    (∀ (s : List Tok) (x : Documented TopLevelSyntax) (s' : List Tok),
        parseDocumented parseTopLevelSyntax s = .ok (x, s') → s'.length < s.length)
      ∧ ∀ s : List Tok, parseTopLevelDocument s ≠ .error .outOfFuel := by
  constructor
  · intro s x s' h
    exact parseDocumented_length (fun a b c hh => parseTopLevelSyntax_length hh) h
  · intro s h
    unfold parseTopLevelDocument at h
    rw [mapE_error] at h
    exact parseManyF_ne_fuel
      (fun a b c hh =>
        parseDocumented_length (fun x y z g => parseTopLevelSyntax_length g) hh)
      (parseDocumented_ne_fuel parseTopLevelSyntax_ne_fuel) _ _ (by omega) h

/-- Witness for C9: one loop iteration over `(use "p")` consumes all four
tokens, strictly decreasing the stream length. -/
theorem topLevelDocument_terminates_witness :
    ([] : List Tok).length
      < [Tok.lp, Tok.kw "use", Tok.strLit "p", Tok.rp].length :=
  topLevelDocument_terminates.1 [Tok.lp, Tok.kw "use", Tok.strLit "p", Tok.rp]
    ⟨⟨[]⟩, .Use "p"⟩ [] rfl

/-- C6: `BuiltinType::parse` succeeds exactly on the eleven fixed scalar
keywords, consuming exactly that one token and producing the unique
matching variant; on any other next token it fails with the lookahead
error listing the accepted keywords (consuming nothing: the error carries
no stream). -/
theorem builtinType_parse_spec :
    (∀ s : List Tok, headIsBuiltinKw s = false →
        parseBuiltinType s = .error (.noMatch builtinTypeKeywords))
  ∧ (∀ rest, parseBuiltinType (Tok.kw "string" :: rest) = .ok (.String, rest))
  ∧ (∀ rest, parseBuiltinType (Tok.kw "u8" :: rest) = .ok (.U8, rest))
  ∧ (∀ rest, parseBuiltinType (Tok.kw "u16" :: rest) = .ok (.U16, rest))
  ∧ (∀ rest, parseBuiltinType (Tok.kw "u32" :: rest) = .ok (.U32, rest))
  ∧ (∀ rest, parseBuiltinType (Tok.kw "u64" :: rest) = .ok (.U64, rest))
  ∧ (∀ rest, parseBuiltinType (Tok.kw "s8" :: rest) = .ok (.S8, rest))
  ∧ (∀ rest, parseBuiltinType (Tok.kw "s16" :: rest) = .ok (.S16, rest))
  ∧ (∀ rest, parseBuiltinType (Tok.kw "s32" :: rest) = .ok (.S32, rest))
  ∧ (∀ rest, parseBuiltinType (Tok.kw "s64" :: rest) = .ok (.S64, rest))
  ∧ (∀ rest, parseBuiltinType (Tok.kw "f32" :: rest) = .ok (.F32, rest))
  ∧ (∀ rest, parseBuiltinType (Tok.kw "f64" :: rest) = .ok (.F64, rest)) := by
  refine ⟨?_, fun _ => rfl, fun _ => rfl, fun _ => rfl, fun _ => rfl, fun _ => rfl,
    fun _ => rfl, fun _ => rfl, fun _ => rfl, fun _ => rfl, fun _ => rfl, fun _ => rfl⟩
  intro s hs
  unfold headIsBuiltinKw at hs
  unfold parseBuiltinType peekKw
  cases hsc : skipComments s with
  | nil => simp only [hsc] at hs ⊢; simp
  | cons t r =>
    simp only [hsc] at hs ⊢
    cases t <;> simp_all [builtinTypeKeywords]

/-- Witness for C6: an identifier token is not a scalar keyword, and the
parser fails on it with the listing error. -/
theorem builtinType_parse_spec_witness :
    headIsBuiltinKw [Tok.id "x"] = false
      ∧ parseBuiltinType [Tok.id "x"] = .error (.noMatch builtinTypeKeywords) :=
  ⟨by decide, builtinType_parse_spec.1 [Tok.id "x"] (by decide)⟩

/-- C8: `TypedefSyntax::parse` takes the direct-alias path exactly when the
body is not parenthesised, or its second token is `array`, or its second
token is the `@witx` marker; otherwise it dispatches on the body's leading
keyword among `enum`/`flags`/`struct`/`union`/`handle`, and any other
leading keyword fails with the lookahead error listing the five. -/
theorem typedef_dispatch :
    (∀ s : List Tok,
        peekIsLParen s = false ∨ peek2Kw "array" s = true
            ∨ peek2Reserved "@witx" s = true →
          parseTypedefSyntax s
            = (parseDatatypeIdentSyntax s).map
                (fun x => (TypedefSyntax.Ident x.1, x.2)))
  ∧ (∀ (k : String) (rest : List Tok), k ∉ typedefKeywords → k ≠ "array" →
        parseTypedefSyntax (Tok.lp :: Tok.kw k :: rest)
          = .error (.noMatch typedefKeywords))
  ∧ parseTypedefSyntax [Tok.lp, Tok.kw "enum", Tok.kw "u8", Tok.id "a", Tok.rp]
      = .ok (.Enum ⟨.U8, [⟨⟨[]⟩, "a"⟩]⟩, [])
  ∧ parseTypedefSyntax [Tok.lp, Tok.kw "flags", Tok.kw "u32", Tok.id "f", Tok.rp]
      = .ok (.Flags ⟨.U32, [⟨⟨[]⟩, "f"⟩]⟩, [])
  ∧ parseTypedefSyntax [Tok.lp, Tok.kw "struct", Tok.lp, Tok.kw "field", Tok.id "a",
        Tok.kw "u8", Tok.rp, Tok.rp]
      = .ok (.Struct ⟨[⟨⟨[]⟩, ⟨"a", .Builtin .U8⟩⟩]⟩, [])
  ∧ parseTypedefSyntax [Tok.lp, Tok.kw "union", Tok.lp, Tok.kw "field", Tok.id "a",
        Tok.kw "u8", Tok.rp, Tok.rp]
      = .ok (.Union ⟨[⟨⟨[]⟩, ⟨"a", .Builtin .U8⟩⟩]⟩, [])
  ∧ parseTypedefSyntax [Tok.lp, Tok.kw "handle", Tok.rp] = .ok (.Handle ⟨[]⟩, []) := by
  refine ⟨?_, ?_, rfl, rfl, rfl, rfl, rfl⟩
  · intro s hs
    unfold parseTypedefSyntax
    have hcond : (!peekIsLParen s || peek2Kw "array" s || peek2Reserved "@witx" s)
        = true := by
      rcases hs with h | h | h <;> simp [h]
    rw [if_pos hcond]
    cases hdt : parseDatatypeIdentSyntax s with
    | error e => simp [Except.map]
    | ok v => obtain ⟨t, r⟩ := v; simp [Except.map]
  · intro k rest h1 h2
    simp only [typedefKeywords, List.mem_cons, List.not_mem_nil, or_false,
      not_or] at h1
    obtain ⟨n1, n2, n3, n4, n5⟩ := h1
    simp [parseTypedefSyntax, peekIsLParen, peek2Kw, peekKw, peek2Reserved,
      peekReserved, parens, consumeLParen, Bind.bind, Except.bind,
      n1, n2, n3, n4, n5, h2]

/-- Witness for C8: a bare identifier body is a direct alias, and the
unknown keyword `memory` after the parenthesis fails with the
five-alternative lookahead error. -/
theorem typedef_dispatch_witness :
    parseTypedefSyntax [Tok.id "t"]
        = (parseDatatypeIdentSyntax [Tok.id "t"]).map
            (fun x => (TypedefSyntax.Ident x.1, x.2))
      ∧ parseTypedefSyntax [Tok.lp, Tok.kw "memory", Tok.rp]
        = .error (.noMatch typedefKeywords) :=
  ⟨typedef_dispatch.1 [Tok.id "t"] (Or.inl (by decide)),
   typedef_dispatch.2.1 "memory" [Tok.rp] (by decide) (by decide)⟩

/-- Round-trip of the datatype-reference parser over its canonical token
rendering, at any adequate fuel: the disambiguation chain of
`DatatypeIdentSyntax::parse` reconstructs every tree, however deeply
`array`/`pointer`/`const_pointer` wrappers nest (the tail must not begin
with the `array` keyword, which the two-token lookahead would claim). -/
lemma parseDTF_render :
    ∀ (d : DatatypeIdentSyntax) (fuel : Nat) (tail : List Tok),
      (renderDT d ++ tail).length < fuel → peekKw "array" tail = false →
      parseDTF fuel (renderDT d ++ tail) = .ok (d, tail) := by
  intro d
  induction d with
  | Builtin b =>
    intro fuel tail hlen htail
    cases fuel with
    | zero => omega
    | succ n =>
      simp only [peekKw] at htail
      cases b <;>
        simp [renderDT, builtinKeyword, parseDTF, peekIsId, peek2Kw, peekKw,
          peekIsLParen, parseBuiltinType, consumeKw, Except.map, htail]
  | Ident nm =>
    intro fuel tail hlen htail
    cases fuel with
    | zero => omega
    | succ n => simp [renderDT, parseDTF, peekIsId, parseId]
  | Array t ih =>
    intro fuel tail hlen htail
    cases fuel with
    | zero => omega
    | succ n =>
      have e1 : renderDT (.Array t) ++ tail
          = Tok.lp :: Tok.kw "array" :: (renderDT t ++ (Tok.rp :: tail)) := by
        simp [renderDT]
      rw [e1] at hlen ⊢
      have hlt : (renderDT t ++ (Tok.rp :: tail)).length < n := by
        simp at hlen ⊢
        omega
      simp [parseDTF, peekIsId, peek2Kw, peekKw, peekIsLParen, consumeLParen,
        consumeKw, consumeRParen, ih n (Tok.rp :: tail) hlt rfl]
  | Pointer t ih =>
    intro fuel tail hlen htail
    cases fuel with
    | zero => omega
    | succ n =>
      have e1 : renderDT (.Pointer t) ++ tail
          = Tok.lp :: Tok.reserved "@witx" :: Tok.kw "pointer"
              :: (renderDT t ++ (Tok.rp :: tail)) := by
        simp [renderDT]
      rw [e1] at hlen ⊢
      have hlt : (renderDT t ++ (Tok.rp :: tail)).length < n := by
        simp at hlen ⊢
        omega
      simp [parseDTF, peekIsId, peek2Kw, peekKw, peekIsLParen, consumeLParen,
        consumeReserved, consumeKw, consumeRParen, ih n (Tok.rp :: tail) hlt rfl]
  | ConstPointer t ih =>
    intro fuel tail hlen htail
    cases fuel with
    | zero => omega
    | succ n =>
      have e1 : renderDT (.ConstPointer t) ++ tail
          = Tok.lp :: Tok.reserved "@witx" :: Tok.kw "const_pointer"
              :: (renderDT t ++ (Tok.rp :: tail)) := by
        simp [renderDT]
      rw [e1] at hlen ⊢
      have hlt : (renderDT t ++ (Tok.rp :: tail)).length < n := by
        simp at hlen ⊢
        omega
      simp [parseDTF, peekIsId, peek2Kw, peekKw, peekIsLParen, consumeLParen,
        consumeReserved, consumeKw, consumeRParen, ih n (Tok.rp :: tail) hlt rfl]

/-- C1 (amended): `DatatypeIdentSyntax::parse` follows the fixed
disambiguation priority (bare identifier → `Ident`; else a parenthesised
form whose second token is `array` → `Array` of a recursively parsed
nested reference; else a parenthesised form requires the `@witx` marker
then `const_pointer` or `pointer` — the keyword is spelled with an
underscore, not `const-pointer` — yielding `ConstPointer`/`Pointer`;
otherwise a built-in scalar) and is round-trip-stable under unbounded
nesting: every tree of wrappers, of any depth, parses back from its token
form; in particular `(@witx pointer (@witx const_pointer u32))` parses to
`Pointer (ConstPointer (Builtin U32))`. -/
theorem datatypeIdent_roundtrip :
    (∀ (d : DatatypeIdentSyntax) (tail : List Tok), peekKw "array" tail = false →
        parseDatatypeIdentSyntax (renderDT d ++ tail) = .ok (d, tail))
  ∧ parseDatatypeIdentSyntax
      [Tok.lp, Tok.reserved "@witx", Tok.kw "pointer", Tok.lp, Tok.reserved "@witx",
       Tok.kw "const_pointer", Tok.kw "u32", Tok.rp, Tok.rp]
      = .ok (.Pointer (.ConstPointer (.Builtin .U32)), []) := by
  constructor
  · intro d tail htail
    exact parseDTF_render d _ tail (by omega) htail
  · rfl

/-- Witness for C1: the round-trip applied at `(array u8)` followed by a
closing parenthesis. -/
theorem datatypeIdent_roundtrip_witness :
    parseDatatypeIdentSyntax (renderDT (.Array (.Builtin .U8)) ++ [Tok.rp])
      = .ok (.Array (.Builtin .U8), [Tok.rp]) :=
  datatypeIdent_roundtrip.1 (.Array (.Builtin .U8)) [Tok.rp] (by decide)

/-- Counterexample for C1 as stated: with the claim's spelling
`const-pointer` (a hyphen), the input
`(@witx pointer (@witx const-pointer u32))` does not parse — the keyword
declared by the source is `const_pointer`, so the inner form falls to the
`pointer` branch and fails expecting the `pointer` keyword. -/
theorem datatypeIdent_hyphen_counterexample :
    parseDatatypeIdentSyntax
      [Tok.lp, Tok.reserved "@witx", Tok.kw "pointer", Tok.lp, Tok.reserved "@witx",
       Tok.kw "const-pointer", Tok.kw "u32", Tok.rp, Tok.rp]
      = .error (.expectedKw "pointer") := rfl

lemma skipComments_comments_append (cs : List String) (rest : List Tok) :
    skipComments (cs.map Tok.comment ++ rest) = skipComments rest := by
  induction cs with
  | nil => simp
  | cons c cs ih => simp [ih]

lemma parseCommentSyntax_head_not_comment {rest : List Tok}
    (h : headNotComment rest = true) : parseCommentSyntax rest = (⟨[]⟩, rest) := by
  cases rest with
  | nil => rfl
  | cons t r => cases t <;> simp_all [headNotComment, parseCommentSyntax]

/-- `CommentSyntax::parse` consumes the whole leading run of comment
tokens, regardless of content, and stops at the first non-comment. -/
lemma parseCommentSyntax_comments (cs : List String) {rest : List Tok}
    (h : headNotComment rest = true) :
    parseCommentSyntax (cs.map Tok.comment ++ rest) = (⟨cs⟩, rest) := by
  induction cs with
  | nil => simpa using parseCommentSyntax_head_not_comment h
  | cons c cs ih => simp [parseCommentSyntax, ih]

/-- The demultiplexing loop keeps params and results in source order,
pairing each field's comments with its field. -/
lemma partitionFuncFields_map (fds : List FieldDesc) :
    partitionFuncFields (fds.map fieldDescItem)
      = ((fds.filter (fun f => f.isParam)).map fieldDescDoc,
         (fds.filter (fun f => !f.isParam)).map fieldDescDoc) := by
  induction fds with
  | nil => rfl
  | cons f fds ih =>
    cases hp : f.isParam <;>
      simp [partitionFuncFields, fieldDescItem, fieldDescDoc, hp, ih,
        List.filter_cons]

lemma parseInterfaceFuncField_render (f : FieldDesc) (rest : List Tok) :
    parseInterfaceFuncField
        (Tok.lp :: Tok.kw (if f.isParam then "param" else "result")
          :: Tok.id f.name :: (renderDT f.ty ++ (Tok.rp :: rest)))
      = .ok ((fieldDescItem f).item, rest) := by
  have hdt := parseDTF_render f.ty ((renderDT f.ty ++ (Tok.rp :: rest)).length + 1)
      (Tok.rp :: rest) (by omega) rfl
  simp only [List.length_append, List.length_cons] at hdt
  cases hp : f.isParam <;>
    simp [parseInterfaceFuncField, parens, consumeLParen, consumeKw, consumeRParen,
      peekKw, parseId, parseDatatypeIdentSyntax, Bind.bind, Except.bind, pure,
      Except.pure, fieldDescItem, hp, hdt]

lemma parseDocumentedFuncField_render (f : FieldDesc) (rest : List Tok) :
    parseDocumented parseInterfaceFuncField (renderFieldDesc f ++ rest)
      = .ok (fieldDescItem f, rest) := by
  have e1 : renderFieldDesc f ++ rest
      = f.docs.map Tok.comment
          ++ (Tok.lp :: Tok.kw (if f.isParam then "param" else "result")
              :: Tok.id f.name :: (renderDT f.ty ++ (Tok.rp :: rest))) := by
    simp [renderFieldDesc]
  rw [e1]
  unfold parseDocumented
  rw [@parseCommentSyntax_comments f.docs
      (Tok.lp :: Tok.kw (if f.isParam then "param" else "result")
        :: Tok.id f.name :: (renderDT f.ty ++ (Tok.rp :: rest))) rfl]
  simp only [parseInterfaceFuncField_render]
  rfl

/-- The while-not-empty loop of `InterfaceFuncSyntax::parse` over any
rendered field sequence parses every field, in order, with its comments. -/
lemma parseIFFields_render :
    ∀ (fds : List FieldDesc) (fuel : Nat),
      ((fds.map renderFieldDesc).flatten).length < fuel →
      parseManyF (parseDocumented parseInterfaceFuncField) fuel
          ((fds.map renderFieldDesc).flatten)
        = .ok (fds.map fieldDescItem, []) := by
  intro fds
  induction fds with
  | nil =>
    intro fuel hlen
    cases fuel with
    | zero => omega
    | succ n => simp [parseManyF, isEmptyP]
  | cons f fds ih =>
    intro fuel hlen
    cases fuel with
    | zero => omega
    | succ n =>
      have e1 : (((f :: fds).map renderFieldDesc).flatten)
          = renderFieldDesc f ++ ((fds.map renderFieldDesc).flatten) := by
        simp
      rw [e1] at hlen ⊢
      have hemp : isEmptyP (renderFieldDesc f ++ ((fds.map renderFieldDesc).flatten))
          = false := by
        simp [isEmptyP, renderFieldDesc, List.append_assoc,
          skipComments_comments_append]
      have hflen : 4 ≤ (renderFieldDesc f).length := by
        simp [renderFieldDesc]
        omega
      have hrec : ((fds.map renderFieldDesc).flatten).length < n := by
        rw [List.length_append] at hlen
        omega
      unfold parseManyF
      rw [hemp]
      simp only [Bool.false_eq_true, if_false]
      rw [parseDocumentedFuncField_render f]
      dsimp only
      rw [ih n hrec]
      rfl

/-- C2 (amended): for every interface-function form whose body is any
interleaving of `(param $name <type>)` and `(result $name <type>)` fields,
each optionally preceded by doc comments — field names are
`$`-identifiers, as `FieldSyntax` stores a `wast::Id`, not string
literals — `InterfaceFuncSyntax::parse` partitions the single intermixed
field sequence into the params vector and the results vector, preserving
source order within each and keeping each field's comments paired with
that field; e.g. `(@interface func (export "foo") (param $a u8)
(result $b u8) (param $c s32))` yields params `[a:u8, c:s32]` and results
`[b:u8]`. -/
theorem interfaceFunc_demux :
    (∀ (e : String) (fds : List FieldDesc),
        parseInterfaceFuncSyntax (interfaceFuncToks e fds)
          = .ok (⟨e, ((fds.map renderFieldDesc).flatten).length + 2,
                  (fds.filter (fun f => f.isParam)).map fieldDescDoc,
                  (fds.filter (fun f => !f.isParam)).map fieldDescDoc⟩, []))
  ∧ parseInterfaceFuncSyntax
      [Tok.reserved "@interface", Tok.kw "func",
       Tok.lp, Tok.kw "export", Tok.strLit "foo", Tok.rp,
       Tok.lp, Tok.kw "param", Tok.id "a", Tok.kw "u8", Tok.rp,
       Tok.lp, Tok.kw "result", Tok.id "b", Tok.kw "u8", Tok.rp,
       Tok.lp, Tok.kw "param", Tok.id "c", Tok.kw "s32", Tok.rp]
      = .ok (⟨"foo", 17,
              [⟨⟨[]⟩, ⟨"a", .Builtin .U8⟩⟩, ⟨⟨[]⟩, ⟨"c", .Builtin .S32⟩⟩],
              [⟨⟨[]⟩, ⟨"b", .Builtin .U8⟩⟩]⟩, []) := by
  constructor
  · intro e fds
    have hloop := parseIFFields_render fds
        (((fds.map renderFieldDesc).flatten).length + 1) (by omega)
    simp only [List.length_flatten, List.map_map] at hloop
    unfold parseInterfaceFuncSyntax interfaceFuncToks
    simp only [List.cons_append, List.nil_append]
    simp [consumeReserved, consumeKw, consumeLParen, consumeRParen, parens,
      parseString, curSpan, Bind.bind, Except.bind, pure, Except.pure,
      hloop, partitionFuncFields_map]
  · rfl

/-- Counterexample for C2 as stated: in the claim's example the field
names are string literals (`(param "a" u8)`), but `FieldSyntax::parse`
parses a `wast::Id`, so the parse fails expecting an identifier. -/
theorem interfaceFunc_string_names_counterexample :
    parseInterfaceFuncSyntax
      [Tok.reserved "@interface", Tok.kw "func",
       Tok.lp, Tok.kw "export", Tok.strLit "foo", Tok.rp,
       Tok.lp, Tok.kw "param", Tok.strLit "a", Tok.kw "u8", Tok.rp,
       Tok.lp, Tok.kw "result", Tok.strLit "b", Tok.kw "u8", Tok.rp,
       Tok.lp, Tok.kw "param", Tok.strLit "c", Tok.kw "s32", Tok.rp]
      = .error .expectedId := rfl


lemma foldl_min_le_init : ∀ (xs : List Nat) (x : Nat), xs.foldl min x ≤ x := by
  intro xs
  induction xs with
  | nil => intro x; simp
  | cons y ys ih =>
    intro x
    calc (y :: ys).foldl min x = ys.foldl min (min x y) := rfl
    _ ≤ min x y := ih (min x y)
    _ ≤ x := min_le_left _ _

lemma foldl_min_le_mem : ∀ (xs : List Nat) (x a : Nat), a ∈ xs → xs.foldl min x ≤ a := by
  intro xs
  induction xs with
  | nil => intro x a h; cases h
  | cons y ys ih =>
    intro x a h
    rcases List.mem_cons.mp h with rfl | hm
    · calc (a :: ys).foldl min x = ys.foldl min (min x a) := rfl
      _ ≤ min x a := foldl_min_le_init ys (min x a)
      _ ≤ a := min_le_right _ _
    · exact ih (min x y) a hm

lemma min?_getD_le {l : List Nat} {a : Nat} (h : a ∈ l) : l.min?.getD 0 ≤ a := by
  cases l with
  | nil => cases h
  | cons x xs =>
    simp only [List.min?, Option.getD_some]
    rcases List.mem_cons.mp h with rfl | hm
    · exact foldl_min_le_init xs a
    · exact foldl_min_le_mem xs x a hm

lemma dropWhile_append_self {p : Char → Bool} (xs ys : List Char)
    (h : List.dropWhile p (xs ++ ys) = xs ++ ys) : List.dropWhile p xs = xs := by
  cases xs with
  | nil => simp
  | cons x xs =>
    by_cases hp : p x
    · exfalso
      rw [List.cons_append, List.dropWhile_cons] at h
      simp only [hp, if_true] at h
      have hlen := congrArg List.length h
      have hle : (List.dropWhile p (xs ++ ys)).length ≤ (xs ++ ys).length :=
        (List.dropWhile_suffix p).length_le
      simp only [List.length_cons] at hlen
      omega
    · rw [List.dropWhile_cons]
      simp [hp]

lemma trimEnd_append_right {xs ys : List Char}
    (h : trimEndChars (xs ++ ys) = xs ++ ys) : trimEndChars ys = ys := by
  unfold trimEndChars at h ⊢
  have h' : List.dropWhile rustIsWhitespace (ys.reverse ++ xs.reverse)
      = ys.reverse ++ xs.reverse := by
    have := congrArg List.reverse h
    simpa [List.reverse_append] using this
  rw [dropWhile_append_self _ _ h']
  simp

lemma dropWhile_idem {p : Char → Bool} :
    ∀ (l : List Char), List.dropWhile p (List.dropWhile p l) = List.dropWhile p l := by
  intro l
  induction l with
  | nil => simp
  | cons a l ih =>
    by_cases hp : p a
    · simp [List.dropWhile_cons, hp, ih]
    · simp [List.dropWhile_cons, hp]

lemma trimEnd_idem (l : List Char) : trimEndChars (trimEndChars l) = trimEndChars l := by
  unfold trimEndChars
  rw [List.reverse_reverse, dropWhile_idem]

lemma docsLines_noTrail {comments : List (List Char)} :
    ∀ d ∈ docsLines comments, trimEndChars d = d := by
  intro d hd
  simp only [docsLines, List.mem_filterMap, List.mem_map] at hd
  obtain ⟨e, ⟨c, hc, rfl⟩, hmatch⟩ := hd
  rcases he : trimEndChars c with _ | ⟨a, rest⟩ <;> rw [he] at hmatch
  · simp at hmatch
  · simp only at hmatch
    split_ifs at hmatch with ha
    · subst ha
      simp only [Option.some.injEq] at hmatch
      subst hmatch
      have hsemi : trimEndChars ([';'] ++ rest) = [';'] ++ rest := by
        have hid := trimEnd_idem c
        rw [he] at hid
        simpa using hid
      exact trimEnd_append_right hsemi

lemma trimChars_of_noTrail {d : List Char} (h : trimEndChars d = d) :
    trimChars d = List.dropWhile rustIsWhitespace d := by
  unfold trimChars trimStartChars
  have hd : trimEndChars (d.takeWhile rustIsWhitespace ++ d.dropWhile rustIsWhitespace)
      = d.takeWhile rustIsWhitespace ++ d.dropWhile rustIsWhitespace := by
    rw [List.takeWhile_append_dropWhile]
    exact h
  exact trimEnd_append_right hd

lemma utf8Len_append (a b : List Char) : utf8Len (a ++ b) = utf8Len a + utf8Len b := by
  simp [utf8Len]

lemma utf8Len_ones : ∀ {l : List Char}, (∀ c ∈ l, c.utf8Size = 1) →
    utf8Len l = l.length := by
  intro l
  induction l with
  | nil => intro; rfl
  | cons c l ih =>
    intro h
    have hc := h c (by simp)
    have hl := ih (fun x hx => h x (by simp [hx]))
    simp [utf8Len] at hl ⊢
    omega

lemma trim_diff_eq_leading {d : List Char} (hnt : trimEndChars d = d)
    (hws : ∀ c ∈ d.takeWhile rustIsWhitespace, c.utf8Size = 1) :
    utf8Len d - utf8Len (trimChars d) = (d.takeWhile rustIsWhitespace).length := by
  rw [trimChars_of_noTrail hnt]
  have hsplit : utf8Len d
      = utf8Len (d.takeWhile rustIsWhitespace) + utf8Len (d.dropWhile rustIsWhitespace) := by
    conv_lhs => rw [← List.takeWhile_append_dropWhile rustIsWhitespace d]
    exact utf8Len_append _ _
  rw [hsplit, utf8Len_ones hws]
  omega

lemma byteDrop_takeWhile_ones {p : Char → Bool} :
    ∀ (n : Nat) (l : List Char), (∀ c ∈ l.takeWhile p, c.utf8Size = 1) →
      n ≤ (l.takeWhile p).length → byteDrop n l = some (l.drop n) := by
  intro n
  induction n with
  | zero => intro l _ _; simp [byteDrop]
  | succ m ih =>
    intro l hws hn
    cases l with
    | nil => simp at hn
    | cons c l' =>
      by_cases hp : p c
      · rw [List.takeWhile_cons_of_pos hp] at hws hn
        have hc : c.utf8Size = 1 := hws c (by simp)
        simp only [byteDrop, hc, List.length_cons] at hn ⊢
        rw [if_pos (by omega)]
        have : m + 1 - 1 = m := by omega
        rw [this]
        simp only [List.drop_succ_cons]
        exact ih l' (fun x hx => hws x (by simp [hx])) (by omega)
      · rw [List.takeWhile_cons_of_neg hp] at hn
        simp at hn

lemma toTrim_eq_spec {comments : List (List Char)}
    (hws : docLeadingWsOneByte comments) :
    toTrim (docsLines comments) = specToTrim (docsLines comments) := by
  unfold toTrim specToTrim
  congr 2
  apply List.map_congr_left
  intro d hd
  have hd' : d ∈ docsLines comments := List.mem_of_mem_filter hd
  exact trim_diff_eq_leading (docsLines_noTrail d hd') (hws d hd')

lemma specToTrim_le {docs : List (List Char)} {d : List Char}
    (hd : d ∈ docs) (hne : ¬d.isEmpty = true) :
    specToTrim docs ≤ (d.takeWhile rustIsWhitespace).length := by
  apply min?_getD_le
  simp only [List.mem_map, List.mem_filter]
  exact ⟨d, ⟨hd, by simp_all⟩, rfl⟩

lemma mapM_eq_some_map {α β : Type} {f : α → Option β} {g : α → β} :
    ∀ {l : List α}, (∀ a ∈ l, f a = some (g a)) → l.mapM f = some (l.map g) := by
  intro l
  induction l with
  | nil => intro; rfl
  | cons a l ih =>
    intro h
    rw [List.mapM_cons, h a (by simp), ih (fun x hx => h x (by simp [hx]))]
    rfl

lemma commentDocs_eq_spec_of_ws {comments : List (List Char)}
    (hws : docLeadingWsOneByte comments) :
    commentDocs comments = some (commentDocsSpec comments) := by
  have h1 : commentDocs comments
      = ((docsLines comments).mapM (fun (d : List Char) =>
          if d.isEmpty then some ['\n']
          else (byteDrop (toTrim (docsLines comments)) d).map
            (fun r => trimEndChars r ++ ['\n']))).map List.flatten := rfl
  rw [h1, toTrim_eq_spec hws]
  have h2 : (docsLines comments).mapM (fun (d : List Char) =>
          if d.isEmpty then some ['\n']
          else (byteDrop (specToTrim (docsLines comments)) d).map
            (fun r => trimEndChars r ++ ['\n']))
      = some ((docsLines comments).map (fun (d : List Char) =>
          (if d.isEmpty then []
           else trimEndChars (d.drop (specToTrim (docsLines comments)))) ++ ['\n'])) := by
    apply mapM_eq_some_map
    intro d hd
    by_cases he : d.isEmpty = true
    · simp [he]
    · rw [if_neg he, if_neg he]
      rw [byteDrop_takeWhile_ones _ _ (hws d hd) (specToTrim_le hd he)]
      rfl
  rw [h2]
  rfl

/-- C4: in `CommentSyntax::docs`, the common-indentation removal computes
the minimum leading-whitespace length across all non-empty doc lines and
uniformly trims exactly that amount from the left of every doc line,
leaving empty lines untouched by the left trim but still right-trimmed:
whenever the leading whitespace is single-byte (so the byte count the code
computes equals the character count of §4.2), `docs` equals the
spec-modelled character-level normalisation; and on doc lines of differing
indentation whose minimum indentation is 2 spaces, every doc line has
exactly 2 spaces stripped. -/
theorem commentDocs_common_indent :
    (∀ comments : List (List Char), docLeadingWsOneByte comments →
        commentDocs comments = some (commentDocsSpec comments))
  ∧ commentDocs [";  foo".toList, ";    bar".toList, ";  baz".toList]
      = some ("foo\n  bar\nbaz\n".toList) :=
  ⟨fun _ hws => commentDocs_eq_spec_of_ws hws, rfl⟩

/-- Witness for C4: the refinement applied to one ASCII comment. -/
theorem commentDocs_common_indent_witness :
    commentDocs [";  a".toList] = some (commentDocsSpec [";  a".toList]) :=
  commentDocs_common_indent.1 [";  a".toList] (by decide)

/-- C10 (amended): `CommentSyntax::docs` never panics provided every doc
line's leading whitespace consists of single-byte characters: the byte
index `to_trim` is then within bounds and on a UTF-8 character boundary
for every non-empty doc line it slices.  (Without that restriction the
slice can panic — see the counterexample.) -/
theorem commentDocs_no_panic :
    ∀ comments : List (List Char), docLeadingWsOneByte comments →
      (commentDocs comments).isSome = true := by
  intro comments hws
  rw [commentDocs_eq_spec_of_ws hws]
  rfl

/-- Witness for C10: a one-space-indented doc line is sliced safely. -/
theorem commentDocs_no_panic_witness :
    (commentDocs [[';', ' ', 'x']]).isSome = true :=
  commentDocs_no_panic [[';', ' ', 'x']] (by decide)

/-- Counterexample for C10 as stated: with doc lines `";\u{00A0}x"` (the
two-byte no-break space, which Rust counts as whitespace) and `"; y"`,
`to_trim` is `min 2 1 = 1`, and slicing `"\u{00A0}x"` at byte 1 is not a
character boundary: `doc[to_trim..]` panics, modelled as `none`. -/
theorem commentDocs_panic_counterexample :
    commentDocs [[';', Char.ofNat 0xA0, 'x'], [';', ' ', 'y']] = none := by
  decide

/-- C5: `CommentSyntax::docs` classifies a consumed comment as a doc
comment only if, after right-trimming, its text begins with `;` (that `;`
is dropped, and the rest becomes a doc line in position); comments not
starting with `;` contribute nothing to the output text, though
`CommentSyntax::parse` still consumes them from the token stream; and zero
doc lines produce the empty string, not an absent value. -/
theorem commentDocs_classification :
    (∀ comments : List (List Char), docsLines comments = [] →
        commentDocs comments = some [])
  ∧ (∀ (xs ys : List (List Char)) (c rest : List Char),
        trimEndChars c = ';' :: rest →
        docsLines (xs ++ c :: ys) = docsLines xs ++ rest :: docsLines ys)
  ∧ (∀ (xs ys : List (List Char)) (c : List Char),
        (trimEndChars c).head? ≠ some ';' →
        commentDocs (xs ++ c :: ys) = commentDocs (xs ++ ys))
  ∧ (∀ (cs : List String) (rest : List Tok), headNotComment rest = true →
        parseCommentSyntax (cs.map Tok.comment ++ rest) = (⟨cs⟩, rest)) := by
  refine ⟨?_, ?_, ?_, fun cs rest h => parseCommentSyntax_comments cs h⟩
  · intro comments h
    unfold commentDocs docsFrom
    rw [h]
    rfl
  · intro xs ys c rest h
    simp [docsLines, List.map_append, List.filterMap_append, List.filterMap_cons, h]
  · intro xs ys c h
    have hnone : (match trimEndChars c with
        | c :: rest => if c = ';' then some rest else none
        | [] => none) = (none : Option (List Char)) := by
      rcases he : trimEndChars c with _ | ⟨a, r⟩
      · rfl
      · rw [he] at h
        simp only [List.head?_cons, ne_eq, Option.some.injEq] at h
        simp [h]
    have hdl : docsLines (xs ++ c :: ys) = docsLines (xs ++ ys) := by
      simp only [docsLines, List.map_append, List.map_cons, List.filterMap_append,
        List.filterMap_cons]
      rw [hnone]
    unfold commentDocs
    rw [hdl]

/-- Witness for C5: a whitespace-only comment yields the empty string; a
`;`-comment contributes its tail; a non-`;` comment changes nothing; the
comment token is consumed from the stream. -/
theorem commentDocs_classification_witness :
    commentDocs [[' ']] = some []
  ∧ docsLines [['x'], [';', ' ', 'a']] = docsLines [['x']] ++ [' ', 'a'] :: docsLines []
  ∧ commentDocs [['x'], [';', 'a']] = commentDocs [[';', 'a']]
  ∧ parseCommentSyntax [Tok.comment "x", Tok.lp] = (⟨["x"]⟩, [Tok.lp]) :=
  ⟨commentDocs_classification.1 [[' ']] (by decide),
   commentDocs_classification.2.1 [['x']] [] [';', ' ', 'a'] [' ', 'a'] (by decide),
   commentDocs_classification.2.2.1 [] [[';', 'a']] ['x'] (by decide),
   commentDocs_classification.2.2.2 ["x"] [Tok.lp] rfl⟩

end Witx
